import Mathlib

/-
Verification of the RU driver-license OCR extraction core of the
GreenContract repository (rentals/ocr/ru_dl).  The Python sources
parse.py, schema.py, rois.py and pipeline.py are shallowly embedded
below: strings are lists of characters, Python floats are modelled as
rationals, regular-expression searches are embedded as explicit
left-to-right backtracking scanners with the same semantics as the
patterns in the source, and the external OCR / image capabilities are
abstracted as inputs.
-/

set_option maxRecDepth 4000

namespace RuDl

/-! ## Character classes (ASCII and Cyrillic, as used by the source regexes) -/

/-- Python whitespace class over the ASCII range (the texts handled by the
pipeline use these). -/
def isPySpace (c : Char) : Bool :=
  c = ' ' || c = '\t' || c = '\n' || c = '\r' || c = '\x0b' || c = '\x0c'

def isAsciiLetter (c : Char) : Bool :=
  ('A' ≤ c && c ≤ 'Z') || ('a' ≤ c && c ≤ 'z')

/-- CYRILLIC_RE of parse.py: `[А-ЯЁа-яё]`. -/
def isCyrChar (c : Char) : Bool :=
  (0x410 ≤ c.toNat && c.toNat ≤ 0x44F) || c.toNat = 0x401 || c.toNat = 0x451

/-- `str.upper` restricted to ASCII letters and the Cyrillic block used here. -/
def pyUpperChar (c : Char) : Char :=
  if 'a' ≤ c ∧ c ≤ 'z' then Char.ofNat (c.toNat - 32)
  else if 0x430 ≤ c.toNat ∧ c.toNat ≤ 0x44F then Char.ofNat (c.toNat - 32)
  else if c.toNat = 0x451 then Char.ofNat 0x401
  else c

def pyUpper (l : List Char) : List Char := l.map pyUpperChar

def pyUpperS (s : String) : String := ⟨pyUpper s.data⟩

/-- DIGIT_TRANSLATION of parse.py (OCR digit-confusion correction). -/
def digitTranslate (c : Char) : Char :=
  if c = 'O' ∨ c = 'o' ∨ c = 'Q' ∨ c = 'D' then '0'
  else if c = 'I' ∨ c = 'l' ∨ c = 'L' then '1'
  else if c = 'Z' then '2'
  else if c = 'S' ∨ c = 's' then '5'
  else if c = 'B' then '8'
  else if c = 'G' ∨ c = 'g' then '6'
  else if c = 'T' then '7'
  else c

/-- MARKER_TRANSLATION of parse.py: Cyrillic А→A, В→B, Б→B. -/
def markerTranslate (c : Char) : Char :=
  if c.toNat = 0x410 then 'A'
  else if c.toNat = 0x412 then 'B'
  else if c.toNat = 0x411 then 'B'
  else c

/-- LATIN_TO_CYR of parse.py (look-alike Latin letters to Cyrillic). -/
def latinToCyr (c : Char) : Char :=
  if c = 'A' then Char.ofNat 0x410 else if c = 'a' then Char.ofNat 0x430
  else if c = 'B' then Char.ofNat 0x412 else if c = 'b' then Char.ofNat 0x432
  else if c = 'E' then Char.ofNat 0x415 else if c = 'e' then Char.ofNat 0x435
  else if c = 'K' then Char.ofNat 0x41A else if c = 'k' then Char.ofNat 0x43A
  else if c = 'M' then Char.ofNat 0x41C else if c = 'm' then Char.ofNat 0x43C
  else if c = 'H' then Char.ofNat 0x41D else if c = 'h' then Char.ofNat 0x43D
  else if c = 'O' then Char.ofNat 0x41E else if c = 'o' then Char.ofNat 0x43E
  else if c = 'P' then Char.ofNat 0x420 else if c = 'p' then Char.ofNat 0x440
  else if c = 'C' then Char.ofNat 0x421 else if c = 'c' then Char.ofNat 0x441
  else if c = 'T' then Char.ofNat 0x422 else if c = 't' then Char.ofNat 0x442
  else if c = 'X' then Char.ofNat 0x425 else if c = 'x' then Char.ofNat 0x445
  else if c = 'Y' then Char.ofNat 0x423 else if c = 'y' then Char.ofNat 0x443
  else c

/-! ## Whitespace handling -/

/-- `str.strip()`. -/
def stripChars (l : List Char) : List Char :=
  ((l.dropWhile isPySpace).reverse.dropWhile isPySpace).reverse

def pyStripS (s : String) : String := ⟨stripChars s.data⟩

/-- Replace every whitespace run by a single space; `prevSpace` records
whether the previous character belonged to a run already replaced. -/
def collapseWsAux (prevSpace : Bool) : List Char → List Char
  | [] => []
  | c :: rest =>
    if isPySpace c then
      (if prevSpace then [] else [' ']) ++ collapseWsAux true rest
    else c :: collapseWsAux false rest

def collapseWs (l : List Char) : List Char := collapseWsAux false l

/-- normalize_whitespace of parse.py: `re.sub(r"\s+", " ", text.strip())`. -/
def normalize_whitespace (s : String) : String := ⟨collapseWs (stripChars s.data)⟩

/-- Substring test (`needle in hay` for Python strings). -/
def containsSub (hay needle : List Char) : Bool :=
  match hay with
  | [] => needle.isEmpty
  | _ :: rest => needle.isPrefixOf hay || containsSub rest needle

/-- Lexicographic string order by code point (Python `<=` on str). -/
def strLeC : List Char → List Char → Bool
  | [], _ => true
  | _ :: _, [] => false
  | a :: as_, b :: bs =>
    if a.toNat < b.toNat then true
    else if a.toNat = b.toNat then strLeC as_ bs
    else false

def strLe (a b : String) : Bool := strLeC a.data b.data

def strLt (a b : String) : Bool := strLe a b && a ≠ b

/-! ## Kernel-computable rational arithmetic

Python float values are modelled as rationals.  The standard `Rat`
operations of the library are irreducible to the kernel, so the embedding
uses the following value-equal reducible forms (each proved equal to the
standard operation below); numeric literals are written with `mkRat`. -/

def qmul (a b : ℚ) : ℚ := Rat.divInt (a.num * b.num) (a.den * b.den)

def qadd (a b : ℚ) : ℚ := Rat.divInt (a.num * b.den + b.num * a.den) (a.den * b.den)

def qsub (a b : ℚ) : ℚ := qadd a (-b)

def qdiv (a b : ℚ) : ℚ := Rat.divInt (a.num * b.den) (a.den * b.num)

def qofNat (n : Nat) : ℚ := mkRat (Int.ofNat n) 1

def qabs (a : ℚ) : ℚ := if a < 0 then -a else a

def qmin (a b : ℚ) : ℚ := if a ≤ b then a else b

def qmax (a b : ℚ) : ℚ := if a ≤ b then b else a

def qsum (l : List ℚ) : ℚ := l.foldl qadd 0

theorem qmul_eq (a b : ℚ) : qmul a b = a * b := by
  rw [qmul, Rat.divInt_eq_div]
  push_cast
  rw [← div_mul_div_comm, Rat.num_div_den, Rat.num_div_den]

theorem qadd_eq (a b : ℚ) : qadd a b = a + b := by
  have ha : ((a.den : ℚ)) ≠ 0 := by
    exact_mod_cast a.den_nz
  have hb : ((b.den : ℚ)) ≠ 0 := by
    exact_mod_cast b.den_nz
  rw [qadd, Rat.divInt_eq_div]
  push_cast
  conv_rhs => rw [← Rat.num_div_den a, ← Rat.num_div_den b]
  rw [div_add_div _ _ ha hb]
  ring_nf

theorem qsub_eq (a b : ℚ) : qsub a b = a - b := by
  rw [qsub, qadd_eq]
  ring

theorem qdiv_eq (a b : ℚ) : qdiv a b = a / b := by
  rcases eq_or_ne b 0 with hb | hb
  · subst hb
    simp [qdiv, Rat.divInt_eq_div]
  · rw [qdiv, Rat.divInt_eq_div]
    push_cast
    conv_rhs =>
      rw [← Rat.num_div_den a, ← Rat.num_div_den b, div_eq_mul_inv, inv_div,
        div_mul_div_comm]

theorem qofNat_eq (n : Nat) : qofNat n = (n : ℚ) := by
  rw [qofNat]
  simp [mkRat, Rat.normalize]

theorem qabs_eq (a : ℚ) : qabs a = |a| := by
  rw [qabs]
  rcases lt_or_le a 0 with h | h
  · rw [if_pos h, abs_of_neg h]
  · rw [if_neg (not_lt.mpr h), abs_of_nonneg h]

theorem qmin_eq (a b : ℚ) : qmin a b = min a b := (min_def a b).symm

theorem qmax_eq (a b : ℚ) : qmax a b = max a b := (max_def a b).symm

/-! ## Date normalization (normalize_date of parse.py) -/

/-- Numeric value of a digit group, as `int()` of its characters. -/
def num (cs : List Char) : Nat := cs.foldl (fun a c => a * 10 + (c.toNat - 48)) 0

/-- Split exactly `n` leading digits, or fail (the `\d{n}` piece of a pattern). -/
def splitDigits : Nat → List Char → Option (List Char × List Char)
  | 0, l => some ([], l)
  | _ + 1, [] => none
  | n + 1, c :: rest =>
    if c.isDigit then (splitDigits n rest).map (fun p => (c :: p.1, p.2)) else none

/-- Match `(\d{4})-(\d{2})-(\d{2})` at the head of the list. -/
def isoMatchAt (l : List Char) : Option (Nat × Nat × Nat) :=
  match splitDigits 4 l with
  | none => none
  | some (ys, r1) =>
    match r1 with
    | '-' :: r2 =>
      match splitDigits 2 r2 with
      | none => none
      | some (ms, r3) =>
        match r3 with
        | '-' :: r4 =>
          match splitDigits 2 r4 with
          | none => none
          | some (ds, _) => some (num ys, num ms, num ds)
        | _ => none
    | _ => none

/-- Leftmost search for the ISO pattern (re.search semantics). -/
def isoSearch : List Char → Option (Nat × Nat × Nat)
  | [] => none
  | c :: rest =>
    match isoMatchAt (c :: rest) with
    | some r => some r
    | none => isoSearch rest

/-- The separator class of DATE_PATTERN: dot, dash, slash or space. -/
def sepChar (c : Char) : Bool := c = '.' || c = '-' || c = '/' || c = ' '

/-- Greedy `\d{2,4}` with nothing after it: try 4, then 3, then 2 digits. -/
def yearMatch (l : List Char) : Option Nat :=
  match splitDigits 4 l with
  | some (ys, _) => some (num ys)
  | none =>
    match splitDigits 3 l with
    | some (ys, _) => some (num ys)
    | none =>
      match splitDigits 2 l with
      | some (ys, _) => some (num ys)
      | none => none

/-- Greedy month-then-year tail of DATE_PATTERN: one or two month digits, a
separator, then the year; regex backtracking from two month digits to one. -/
def monthYear (l : List Char) : Option (Nat × Nat) :=
  let try2 :=
    match splitDigits 2 l with
    | some (ms, s :: r) =>
      if sepChar s then (yearMatch r).map (fun y => (num ms, y)) else none
    | _ => none
  match try2 with
  | some res => some res
  | none =>
    match splitDigits 1 l with
    | some (ms, s :: r) =>
      if sepChar s then (yearMatch r).map (fun y => (num ms, y)) else none
    | _ => none

/-- Match DATE_PATTERN at the head: day, separator, month, separator, year,
with regex backtracking from two day digits to one. -/
def dmyMatchAt (l : List Char) : Option (Nat × Nat × Nat) :=
  let try2 :=
    match splitDigits 2 l with
    | some (ds, s :: r) =>
      if sepChar s then (monthYear r).map (fun (p : Nat × Nat) => (num ds, p.1, p.2)) else none
    | _ => none
  match try2 with
  | some res => some res
  | none =>
    match splitDigits 1 l with
    | some (ds, s :: r) =>
      if sepChar s then (monthYear r).map (fun (p : Nat × Nat) => (num ds, p.1, p.2)) else none
    | _ => none

/-- Leftmost search for DATE_PATTERN. -/
def dmySearch : List Char → Option (Nat × Nat × Nat)
  | [] => none
  | c :: rest =>
    match dmyMatchAt (c :: rest) with
    | some r => some r
    | none => dmySearch rest

/-- Proleptic Gregorian leap year, as used by `datetime`. -/
def isLeap (y : Nat) : Bool := y % 4 = 0 && (y % 100 ≠ 0 || y % 400 = 0)

def daysInMonth (y m : Nat) : Nat :=
  if m = 2 then (if isLeap y then 29 else 28)
  else if m = 4 ∨ m = 6 ∨ m = 9 ∨ m = 11 then 30
  else 31

/-- `datetime(year, month, day)` succeeds exactly on these triples. -/
def validDate (y m d : Nat) : Bool :=
  1 ≤ y && y ≤ 9999 && 1 ≤ m && m ≤ 12 && 1 ≤ d && d ≤ daysInMonth y m

/-- Decimal digits of a natural number, no padding; the first argument is
fuel, sufficient whenever it is at least the number itself. -/
def natStrAux : Nat → Nat → List Char → List Char
  | 0, _, acc => acc
  | _ + 1, 0, acc => acc
  | fuel + 1, n, acc => natStrAux fuel (n / 10) (Nat.digitChar (n % 10) :: acc)

def natStr (n : Nat) : List Char := if n = 0 then ['0'] else natStrAux n n []

/-- Zero-padded two-digit rendering (`%m` / `%d` for values below 100). -/
def pad2 (n : Nat) : List Char :=
  if n < 10 then ['0', Nat.digitChar n] else natStr n

/-- `date.strftime("%Y-%m-%d")`; the year is rendered unpadded as by glibc. -/
def formatDate (y m d : Nat) : List Char :=
  natStr y ++ '-' :: pad2 m ++ '-' :: pad2 d

def normalize_date_chars (l : List Char) : Option (List Char) :=
  let t := (l.map digitTranslate).map (fun c => if c = ',' then '.' else c)
  match isoSearch t with
  | some (y, m, d) => if validDate y m d then some (formatDate y m d) else none
  | none =>
    match dmySearch t with
    | none => none
    | some (d, m, y0) =>
      let y := if y0 < 100 then (if y0 < 30 then 2000 + y0 else 1900 + y0) else y0
      if validDate y m d then some (formatDate y m d) else none

/-- normalize_date of parse.py. -/
def normalize_date (s : String) : Option String :=
  if s = "" then none
  else (normalize_date_chars s.data).map (fun l => ⟨l⟩)

/-! ## License-number normalization (normalize_license_number of parse.py) -/

/-- Leftmost search for `\d{10}`: the first run of ten consecutive digits. -/
def run10Search : List Char → Option (List Char)
  | [] => none
  | c :: rest =>
    match splitDigits 10 (c :: rest) with
    | some (r, _) => some r
    | none => run10Search rest

/-- The license formatting: two digits, space, two digits, space, six
digits. -/
def licFormat (digits : List Char) : List Char :=
  digits.take 2 ++ ' ' :: ((digits.drop 2).take 2 ++ ' ' :: (digits.drop 4).take 6)

/-- normalize_license_number of parse.py. -/
def normalize_license_number (s : String) : Option String :=
  if s = "" then none
  else
    let t := s.data.map digitTranslate
    let digits :=
      match run10Search t with
      | some r => r
      | none => t.filter (fun c => c.isDigit)
    if digits.length = 10 then some ⟨licFormat digits⟩
    else none

/-! ## Category parsing (parse_categories of parse.py) -/

/-- Word characters for `\b` in the texts at hand: ASCII alphanumerics,
underscore, and the Cyrillic block (Python `\w` is Unicode-aware). -/
def isWordChar (c : Char) : Bool := c.isAlphanum || c = '_' || isCyrChar c

/-- The alternatives of CATEGORY_PATTERN, in source order. -/
def VOCAB : List (List Char) :=
  [['A', '1'], ['B', '1'], ['C', '1'], ['D', '1'], ['B', 'E'], ['C', 'E'],
   ['D', 'E'], ['A'], ['B'], ['C'], ['D'], ['M'], ['T', 'M'], ['T', 'B']]

/-- No word character directly ahead (the trailing `\b`, given the token
itself ends in a word character). -/
def noWordAhead : List Char → Bool
  | [] => true
  | c :: _ => !isWordChar c

/-- Try the alternatives at the current position, in pattern order; an
alternative matches when it is a prefix and the trailing boundary holds. -/
def tryVocab : List (List Char) → List Char → Option (List Char)
  | [], _ => none
  | w :: ws, l =>
    if w.isPrefixOf l ∧ noWordAhead (l.drop w.length) then some w
    else tryVocab ws l

/-- `findall` scan of CATEGORY_PATTERN: at each position whose left context
is a word boundary try the alternatives; on a match continue after it.  The
first argument is fuel, sufficient whenever it is at least the length of the
scanned list. -/
def scanCatsAux : Nat → Option Char → List Char → List (List Char)
  | 0, _, _ => []
  | _ + 1, _, [] => []
  | fuel + 1, prev, c :: rest =>
    let atBoundary :=
      match prev with
      | none => true
      | some p => !isWordChar p
    match (if atBoundary then tryVocab VOCAB (c :: rest) else none) with
    | some w => w :: scanCatsAux fuel (some (w.getLastD c)) (rest.drop (w.length - 1))
    | none => scanCatsAux fuel (some c) rest

def scanCats (prev : Option Char) (l : List Char) : List (List Char) :=
  scanCatsAux l.length prev l

/-- De-duplication preserving first appearance (the loop of parse_categories). -/
def dedupFirst (l : List String) : List String :=
  l.foldl (fun acc x => if x ∈ acc then acc else acc ++ [x]) []

/-- parse_categories of parse.py. -/
def parse_categories (s : String) : List String :=
  if s = "" then []
  else dedupFirst ((scanCats none (pyUpper s.data)).map (fun w => (⟨w⟩ : String)))

/-! Specification-side characterization of category extraction, from the
spec words: the vocabulary tokens found in the input (maximal word runs
equal to a token), upper-cased, de-duplicated, first appearance first. -/

/-- Maximal runs of word characters of a string (fuel-driven, sufficient
whenever the fuel is at least the length of the list). -/
def wordRunsAux : Nat → List Char → List (List Char)
  | 0, _ => []
  | _ + 1, [] => []
  | fuel + 1, c :: rest =>
    if isWordChar c then
      (c :: rest.takeWhile isWordChar) :: wordRunsAux fuel (rest.dropWhile isWordChar)
    else wordRunsAux fuel rest

def wordRuns (l : List Char) : List (List Char) := wordRunsAux l.length l

/-- Category extraction as the spec words it. -/
def catsSpec (s : String) : List String :=
  dedupFirst (((wordRuns (pyUpper s.data)).filter (fun r => r ∈ VOCAB)).map
    (fun w => (⟨w⟩ : String)))

/-! ## Field values and status determination (schema.py, determine_status) -/

/-- A typed field value of the response: Python None, a string, or a list of
strings (the categories field). -/
inductive FieldValue where
  | vnull
  | vstr (s : String)
  | vlist (l : List String)
deriving DecidableEq

/-- `value in (None, "", [])` of the source. -/
def isMissingValue : FieldValue → Bool
  | .vnull => true
  | .vstr s => s = ""
  | .vlist l => l = []

/-- One entry of the response field map: value plus confidence.  Python
floats are modelled as rationals. -/
structure FieldEntry where
  value : FieldValue
  confidence : ℚ
deriving DecidableEq

/-- The response field map, in insertion order. -/
abbrev Fields := List (String × FieldEntry)

/-- Dictionary lookup by key (first match). -/
def lookupKey {β : Type} (l : List (String × β)) (k : String) : Option β :=
  match l with
  | [] => none
  | kv :: rest => if kv.1 = k then some kv.2 else lookupKey rest k

/-- `fields.get(name) or ` the empty dict: a missing entry reads as value
None with confidence 0. -/
def getField (fields : Fields) (name : String) : FieldEntry :=
  match lookupKey fields name with
  | some f => f
  | none => ⟨.vnull, 0⟩

/-- REQUIRED_FIELDS of parse.py.  The Python constant is a set; its
iteration order is fixed here in source order, which affects only the order
of the returned lists. -/
def REQUIRED_FIELDS : List String := ["full_name", "birth_date", "license_number"]

/-- determine_status of parse.py: scans the required fields, classifying
each as missing (empty value) or low-confidence (present but below the
minimum confidence); status is "partial" when either list is nonempty. -/
def determine_status (fields : Fields) (required : List String) (min_confidence : ℚ) :
    String × List String × List String :=
  let acc := required.foldl
    (fun (acc : List String × List String) name =>
      let field := getField fields name
      if isMissingValue field.value then (acc.1 ++ [name], acc.2)
      else if field.confidence < min_confidence then (acc.1, acc.2 ++ [name])
      else acc)
    ([], [])
  let status := if acc.1 ≠ [] ∨ acc.2 ≠ [] then "partial" else "ok"
  (status, acc.1, acc.2)

/-- FIELD_DEFAULTS of schema.py, in source order. -/
def FIELD_DEFAULTS : List (String × FieldValue) :=
  [("full_name", .vnull), ("birth_date", .vnull), ("license_number", .vnull),
   ("license_issued_by", .vnull), ("driving_since", .vnull),
   ("categories", .vlist []), ("special_marks", .vnull)]

/-- A parsed map: field name to (value, confidence), as the parse functions
return it. -/
abbrev Parsed := List (String × (FieldValue × ℚ))

def isListValue : FieldValue → Bool
  | .vlist _ => true
  | _ => false

/-- build_fields of schema.py. -/
def build_fields (parsed : Parsed) : Fields :=
  FIELD_DEFAULTS.map (fun nd =>
    let vc := (lookupKey parsed nd.1).getD (nd.2, 0)
    let value :=
      if (vc.1 = .vnull ∨ vc.1 = .vstr "") ∧ isListValue nd.2 then .vlist []
      else vc.1
    (nd.1, (⟨value, vc.2⟩ : FieldEntry)))

/-! ## Front/back parsing (parse.py) -/

/-- Rounding to three decimal places, `round(x, 3)` of the source.  Python
rounds binary floats half-to-even; the model rounds rationals half-up, which
agrees except on exact ties, none of which the verified properties use. -/
def round3 (q : ℚ) : ℚ :=
  Rat.divInt (Rat.floor (qadd (qmul q (qofNat 1000)) (mkRat 1 2))) 1000

theorem round3_eq (q : ℚ) : round3 q = ((round (q * 1000) : ℤ) : ℚ) / 1000 := by
  rw [round3, qadd_eq, qmul_eq, qofNat_eq, Rat.divInt_eq_div, round_eq]
  norm_num
  rfl

/-- _avg_conf of parse.py (its confidences are never Python None here, so
the None filter is vacuous). -/
def avg_conf (confidences : List ℚ) : ℚ :=
  if confidences = [] then 0
  else round3 (qdiv (qsum confidences) (qofNat confidences.length))

/-- One raw OCR region result: text and confidence. -/
structure RoiEntry where
  text : String
  confidence : ℚ
deriving DecidableEq

/-- The per-region OCR result map handed to the parsers. -/
abbrev Rois := List (String × RoiEntry)

/-- _roi_text of parse.py. -/
def roi_text (rois : Rois) (key : String) : String :=
  normalize_whitespace (((lookupKey rois key).map RoiEntry.text).getD "")

/-- _roi_conf of parse.py (missing or falsy confidence reads as 0). -/
def roi_conf (rois : Rois) (key : String) : ℚ :=
  ((lookupKey rois key).map RoiEntry.confidence).getD 0

/-- LABEL_PREFIX_RE applied at the start, then strip: removes an optional
leading numeric label such as `1.` or `4a)` (whitespace, one or more digits,
an optional ASCII letter, an optional dot or closing parenthesis, then
whitespace). -/
def strip_label (s : String) : String :=
  let l := s.data
  let afterWs := l.dropWhile isPySpace
  let stripped :=
    match afterWs with
    | c :: _ =>
      if c.isDigit then
        let afterD := afterWs.dropWhile Char.isDigit
        let afterL :=
          match afterD with
          | c2 :: r2 => if isAsciiLetter c2 then r2 else afterD
          | [] => []
        let afterP :=
          match afterL with
          | c3 :: r3 => if c3 = '.' ∨ c3 = ')' then r3 else afterL
          | [] => []
        afterP.dropWhile isPySpace
      else l
    | [] => l
  pyStripS ⟨stripped⟩

/-- The character class kept by NAME_CLEAN_RE and the name-cleaning sub in
parse.py: Latin and Cyrillic letters, whitespace and hyphen. -/
def isNameKeep (c : Char) : Bool :=
  isAsciiLetter c || (0x410 ≤ c.toNat && c.toNat ≤ 0x44F) || c.toNat = 0x401 ||
    c.toNat = 0x451 || isPySpace c || c = '-'

/-- _clean_name_line of parse.py. -/
def clean_name_line (text : String) : String :=
  let cleaned := strip_label text
  let l1 := cleaned.data.map (fun c => if c = '•' ∨ c = '·' then ' ' else c)
  let l2 := l1.map (fun c => if isNameKeep c then c else ' ')
  if ¬ l2.any isCyrChar then ""
  else
    let l3 := l2.map latinToCyr
    let l4 := l3.map (fun c => if isAsciiLetter c then ' ' else c)
    normalize_whitespace ⟨l4⟩

/-- _apply_name_dictionary of parse.py under the default configuration: the
OCR_NAME_DICTIONARY_PATH environment variable is unset, _load_name_dictionary
returns the empty dictionary, and the function returns its input unchanged. -/
def apply_name_dictionary (text : String) : String := text

/-- STOPWORDS of parse.py. -/
def STOPWORDS : List String :=
  ["ВОДИТЕЛ", "УДОСТОВ", "РЕСП", "ОБЛ", "КРАЙ", "ГИБДД", "РОСС", "ФЕДЕР",
   "DRIVING", "LICENCE", "LICENSE", "PERMIS", "RUS"]

/-- _name_quality of parse.py: the share of Cyrillic letters among the
letters of the cleaned text, zero on digits, stop-words or empty input. -/
def name_quality (text : String) : ℚ :=
  if text = "" then 0
  else
    let cleaned := normalize_whitespace ⟨text.data.map (fun c => if isNameKeep c then c else ' ')⟩
    if cleaned = "" then 0
    else if cleaned.data.any Char.isDigit then 0
    else if STOPWORDS.any (fun w => containsSub (pyUpper cleaned.data) w.data) then 0
    else
      let letters := cleaned.data.filter (fun c => isAsciiLetter c || isCyrChar c)
      if letters = [] then 0
      else round3 (qdiv (qofNat (letters.filter isCyrChar).length) (qofNat letters.length))

/-- `str.splitlines()` for newline-separated text (the texts joined by the
pipeline use the plain newline separator). -/
def splitLinesAux (cur : List Char) : List Char → List String
  | [] => [⟨cur.reverse⟩]
  | c :: rest =>
    if c = '\n' then
      (⟨cur.reverse⟩ : String) ::
        (match rest with
         | [] => []
         | _ :: _ => splitLinesAux [] rest)
    else splitLinesAux (c :: cur) rest

def splitLines (s : String) : List String :=
  if s = "" then [] else splitLinesAux [] s.data

/-- `str.split()`: whitespace-separated tokens, no empties. -/
def splitWsAux (cur : List Char) : List Char → List String
  | [] => if cur.isEmpty then [] else [⟨cur.reverse⟩]
  | c :: rest =>
    if isPySpace c then
      (if cur.isEmpty then [] else [(⟨cur.reverse⟩ : String)]) ++ splitWsAux [] rest
    else splitWsAux (c :: cur) rest

def splitWs (s : String) : List String := splitWsAux [] s.data

/-- The line loop of _extract_marker_date: at the first line whose
whitespace-free upper-cased translation contains a marker, take a date from
it or from the following line; otherwise keep scanning. -/
def markerLoop (markers : List String) : List String → List (List Char) → Option String
  | line :: restLines, norm :: restNorm =>
    if markers.any (fun m => containsSub norm m.data) then
      match normalize_date line with
      | some d => some d
      | none =>
        match restLines with
        | next :: _ =>
          match normalize_date next with
          | some d => some d
          | none => markerLoop markers restLines restNorm
        | [] => markerLoop markers restLines restNorm
    else markerLoop markers restLines restNorm
  | _, _ => none

/-- _extract_marker_date of parse.py. -/
def extract_marker_date (raw_text : String) (markers : List String) : Option String :=
  let lines := ((splitLines raw_text).filter (fun l => pyStripS l ≠ "")).map normalize_whitespace
  let normalized :=
    lines.map (fun l => ((pyUpper l.data).filter (fun c => !isPySpace c)).map markerTranslate)
  markerLoop markers lines normalized

/-- DRIVING_MARKERS of parse.py. -/
def DRIVING_MARKERS : List String := ["СТАЖ"]

/-- _has_driving_marker of parse.py. -/
def has_driving_marker (text : String) : Bool :=
  DRIVING_MARKERS.any (fun m => containsSub (pyUpper text.data) m.data)

/-- The character class kept by ISSUER_CLEAN_RE: digits, Cyrillic letters,
whitespace and hyphen. -/
def isIssuerKeep (c : Char) : Bool :=
  c.isDigit || (0x410 ≤ c.toNat && c.toNat ≤ 0x44F) || c.toNat = 0x401 ||
    c.toNat = 0x451 || isPySpace c || c = '-'

/-- Drop consecutive duplicate tokens (the dedup loop of _clean_issuer_line). -/
def dedupAdjacent (lastTok : Option String) : List String → List String
  | [] => []
  | t :: rest =>
    if lastTok = some t then dedupAdjacent (some t) rest
    else t :: dedupAdjacent (some t) rest

/-- _clean_issuer_line of parse.py. -/
def clean_issuer_line (text : String) : String :=
  let cleaned := strip_label text
  if cleaned = "" then ""
  else
    let c1 := cleaned.data.map latinToCyr
    let c2 := c1.map (fun c => if isIssuerKeep c then c else ' ')
    let c3 := normalize_whitespace ⟨c2⟩
    if ¬ c3.data.any isCyrChar then ""
    else String.intercalate " " (dedupAdjacent none (splitWs c3))

def optStr : Option String → FieldValue
  | none => .vnull
  | some s => .vstr s

/-- The full-name block of parse_front: reconstruct from the three name
part regions, then prefer the detected full-name line according to the
word-count and quality heuristics. -/
def parse_front_name (rois : Rois) : Option String × ℚ :=
  let surname := apply_name_dictionary (clean_name_line (roi_text rois "surname"))
  let name := apply_name_dictionary (clean_name_line (roi_text rois "name"))
  let patronymic0 := apply_name_dictionary (clean_name_line (roi_text rois "patronymic"))
  let full_name_line := apply_name_dictionary (clean_name_line (roi_text rois "full_name_line"))
  let patronymic := if patronymic0.data.any Char.isDigit then "" else patronymic0
  let name_parts := [surname, name, patronymic].filter (fun p => p ≠ "")
  let fn0 : Option String × ℚ :=
    if name_parts ≠ [] then
      (some (String.intercalate " " name_parts),
       avg_conf [roi_conf rois "surname", roi_conf rois "name", roi_conf rois "patronymic"])
    else (none, 0)
  if full_name_line ≠ "" then
    let line_conf := roi_conf rois "full_name_line"
    match fn0.1 with
    | none => (some full_name_line, line_conf)
    | some f =>
      let parts_quality := name_quality f
      let line_quality := name_quality full_name_line
      let parts_words := (splitWs f).length
      let line_words := (splitWs full_name_line).length
      if surname = "" ∧ line_words ≥ parts_words then (some full_name_line, line_conf)
      else if line_words > parts_words then (some full_name_line, line_conf)
      else if line_quality > qadd parts_quality (mkRat 1 10) then (some full_name_line, line_conf)
      else (some f, fn0.2)
  else fn0

/-- The issuer block of parse_front: cleaned issuer line, kept only when it
carries an authority marker. -/
def parse_front_issuer (rois : Rois) : Option String × ℚ :=
  let li0 := clean_issuer_line (roi_text rois "license_issued_by")
  let li1 : Option String := if li0 = "" then none else some li0
  let li_conf0 := roi_conf rois "license_issued_by"
  match li1 with
  | some s =>
    if containsSub (pyUpper s.data) "ГИБДД".data ∨ containsSub (pyUpper s.data) "МРЭО".data
    then (some s, li_conf0)
    else (none, 0)
  | none => (none, li_conf0)

/-- The driving-since block of parse_front: the normalized region date,
discarded when not after the birth date or not before a 4B-anchored
validity date found in the context text. -/
def parse_front_driving (rois : Rois) (context_text : Option String)
    (birth_date : Option String) : Option String × ℚ :=
  let ds0 := normalize_date (strip_label (roi_text rois "driving_since"))
  let ds_conf0 := roi_conf rois "driving_since"
  let ds1 : Option String × ℚ :=
    match ds0, birth_date with
    | some d, some b => if strLe d b then (none, 0) else (some d, ds_conf0)
    | _, _ => (ds0, ds_conf0)
  match ds1.1, context_text with
  | some d, some ctx =>
    if ctx ≠ "" then
      match extract_marker_date ctx ["4B"] with
      | some valid_until =>
        if strLe valid_until d then (none, 0) else (some d, ds1.2)
      | none => (some d, ds1.2)
    else (some d, ds1.2)
  | _, _ => ds1

/-- The driving-since decision logic abstracted over the region date and
confidence, for case analysis; definitionally equal to parse_front_driving
(see parse_front_driving_as). -/
def drivingLogic (ds0 : Option String) (q0 : ℚ) (ctx : Option String)
    (bd : Option String) : Option String × ℚ :=
  let ds1 : Option String × ℚ :=
    match ds0, bd with
    | some d, some b => if strLe d b then (none, 0) else (some d, q0)
    | _, _ => (ds0, q0)
  match ds1.1, ctx with
  | some d, some c =>
    if c ≠ "" then
      match extract_marker_date c ["4B"] with
      | some valid_until => if strLe valid_until d then (none, 0) else (some d, ds1.2)
      | none => (some d, ds1.2)
    else (some d, ds1.2)
  | _, _ => ds1

/-- parse_front of parse.py, assembled from the blocks above.  The context
text is the optional `context_text` argument; the name dictionary is empty
(see apply_name_dictionary). -/
def parse_front (rois : Rois) (context_text : Option String) : Parsed :=
  let birth_date := normalize_date (strip_label (roi_text rois "birth_date"))
  [("full_name",
    (optStr (parse_front_name rois).1, (parse_front_name rois).2)),
   ("birth_date", (optStr birth_date, roi_conf rois "birth_date")),
   ("license_number",
    (optStr (normalize_license_number (strip_label (roi_text rois "license_number"))),
     roi_conf rois "license_number")),
   ("license_issued_by",
    (optStr (parse_front_issuer rois).1, (parse_front_issuer rois).2)),
   ("driving_since",
    (optStr (parse_front_driving rois context_text birth_date).1,
     (parse_front_driving rois context_text birth_date).2))]

/-- parse_back of parse.py. -/
def parse_back (rois : Rois) : Parsed :=
  let categories_text :=
    if roi_text rois "categories" ≠ "" then roi_text rois "categories"
    else roi_text rois "raw_text"
  let categories := parse_categories categories_text
  let categories_conf :=
    if roi_conf rois "categories" ≠ 0 then roi_conf rois "categories"
    else roi_conf rois "raw_text"
  let special_marks := roi_text rois "special_marks"
  let smv : FieldValue := if special_marks = "" then .vnull else .vstr special_marks
  [("categories", (FieldValue.vlist categories, categories_conf)),
   ("special_marks", (smv, roi_conf rois "special_marks"))]

/-! ## Full-image fallback parsing (parse_front_from_text of parse.py) -/

/-- Maximal runs of characters satisfying a predicate (fuel-driven). -/
def runsByAux (p : Char → Bool) : Nat → List Char → List (List Char)
  | 0, _ => []
  | _ + 1, [] => []
  | fuel + 1, c :: rest =>
    if p c then
      (c :: rest.takeWhile p) :: runsByAux p fuel (rest.dropWhile p)
    else runsByAux p fuel rest

def runsBy (p : Char → Bool) (l : List Char) : List (List Char) :=
  runsByAux p l.length l

/-- Tail of the license pattern: six digits and a trailing word boundary;
returns the consumed characters appended to the accumulator. -/
def licFrom6 (acc : List Char) (l : List Char) : Option (List Char) :=
  match splitDigits 6 l with
  | none => none
  | some (d3, r3) => if noWordAhead r3 then some (acc ++ d3) else none

/-- Middle of the license pattern: two digits, an optional whitespace
(greedy, with regex backtracking), then the six-digit tail. -/
def licFrom2b (acc : List Char) (l : List Char) : Option (List Char) :=
  match splitDigits 2 l with
  | none => none
  | some (d2, r2) =>
    match r2 with
    | c :: r =>
      if isPySpace c then
        match licFrom6 (acc ++ d2 ++ [c]) r with
        | some m => some m
        | none => licFrom6 (acc ++ d2) r2
      else licFrom6 (acc ++ d2) r2
    | [] => licFrom6 (acc ++ d2) r2

/-- Match the spaced license pattern (two digits, optional space, two
digits, optional space, six digits, word-bounded) at the head. -/
def licMatchAt (l : List Char) : Option (List Char) :=
  match splitDigits 2 l with
  | none => none
  | some (d1, r1) =>
    match r1 with
    | c :: r =>
      if isPySpace c then
        match licFrom2b (d1 ++ [c]) r with
        | some m => some m
        | none => licFrom2b d1 r1
      else licFrom2b d1 r1
    | [] => licFrom2b d1 r1

/-- Leftmost search for the spaced license pattern, with its leading word
boundary. -/
def licSearch (prev : Option Char) : List Char → Option (List Char)
  | [] => none
  | c :: rest =>
    let boundary :=
      match prev with
      | none => true
      | some p => !isWordChar p
    match (if boundary then licMatchAt (c :: rest) else none) with
    | some m => some m
    | none => licSearch (some c) rest

/-- Python `min` over a list of strings (lexicographic, first minimum). -/
def minStr : List String → Option String
  | [] => none
  | s :: rest => some (rest.foldl (fun a b => if strLe a b then a else b) s)

/-- The driving-since loop of parse_front_from_text: at the first marker
line take a date from it or the next line, then stop. -/
def drivingLoop : List String → Option String
  | [] => none
  | line :: rest =>
    if has_driving_marker line then
      match normalize_date line with
      | some d => some d
      | none =>
        match rest with
        | next :: _ => normalize_date next
        | [] => none
    else drivingLoop rest

/-- The issuer loop of parse_front_from_text: marker lines assign the
cleaned line (possibly empty), stopping at the first nonempty one. -/
def issuerLoop : List (String × String) → Option String → Option String
  | [], acc => acc
  | lu :: rest, acc =>
    if containsSub lu.2.data "ГИБДД".data || containsSub lu.2.data "МРЭО".data then
      let c := clean_issuer_line lu.1
      if c ≠ "" then some c else issuerLoop rest (some c)
    else issuerLoop rest acc

/-- The base confidence of parse_front_from_text: the given confidence when
truthy, else 0.55. -/
def pftext_base (base_conf : Option ℚ) : ℚ :=
  match base_conf with
  | some b => if b ≠ 0 then b else mkRat 55 100
  | none => mkRat 55 100

/-- parse_front_from_text of parse.py. -/
def parse_front_from_text (raw_text : String) (base_conf : Option ℚ) : Parsed :=
  if raw_text = "" then []
  else
    let lines := ((splitLines raw_text).filter (fun l => pyStripS l ≠ "")).map normalize_whitespace
    let upper_lines := lines.map pyUpperS
    let pairs := lines.zip upper_lines
    let isNameLine := fun (line upper_line : String) =>
      (clean_name_line line).data.any isCyrChar ∧
      ¬ line.data.any Char.isDigit ∧
      ¬ STOPWORDS.any (fun w => containsSub upper_line.data w.data)
    let name_candidates := pairs.foldl
      (fun acc lu =>
        if isNameLine lu.1 lu.2 then
          let cleaned := clean_name_line lu.1
          if cleaned ≠ "" ∧ cleaned ∉ acc then acc ++ [cleaned] else acc
        else acc)
      []
    let full_name : Option String :=
      if name_candidates.length ≥ 2 then
        some (String.intercalate " " (name_candidates.take 3))
      else
        match name_candidates with
        | c :: _ => some c
        | [] => none
    let full_name := full_name.map apply_name_dictionary
    let birth_date := minStr (lines.filterMap normalize_date)
    let driving_since := if has_driving_marker raw_text then drivingLoop lines else none
    let license_number :=
      match licSearch none raw_text.data with
      | some m => normalize_license_number ⟨m⟩
      | none =>
        match (runsBy Char.isDigit raw_text.data).filter (fun r => r.length ≥ 10) with
        | r :: _ => normalize_license_number ⟨r⟩
        | [] => none
    let license_issued_by := issuerLoop pairs none
    let base := qmax (mkRat 2 5) (qmin (pftext_base base_conf) (mkRat 17 20))
    let name_conf := round3 (qmul base (mkRat 85 100))
    let date_conf := round3 (qmul base (mkRat 8 10))
    let license_conf := round3 (qmul base (mkRat 9 10))
    let issued_conf := round3 (qmul base (mkRat 75 100))
    [("full_name", (optStr full_name, name_conf)),
     ("birth_date", (optStr birth_date, date_conf)),
     ("license_number", (optStr license_number, license_conf)),
     ("license_issued_by", (optStr license_issued_by, issued_conf)),
     ("driving_since", (optStr driving_since, date_conf))]

/-! ## Pipeline assembly (pipeline.py) -/

/-- Overwrite the value at a present key (dict assignment). -/
def setKey (l : Parsed) (k : String) (v : FieldValue × ℚ) : Parsed :=
  l.map (fun kv => if kv.1 = k then (k, v) else kv)

/-- _merge_parsed of pipeline.py: fallback entries fill only keys that are
absent or whose current value is missing. -/
def merge_parsed (primary fallback : Parsed) : Parsed :=
  fallback.foldl
    (fun merged kv =>
      if isMissingValue kv.2.1 then merged
      else
        match lookupKey merged kv.1 with
        | none => merged ++ [kv]
        | some cur => if isMissingValue cur.1 then setKey merged kv.1 kv.2 else merged)
    primary

/-- _collect_raw_text of pipeline.py. -/
def collect_raw_text (rois : Rois) : String :=
  String.intercalate "\n" ((rois.map (fun kv => pyStripS kv.2.text)).filter (fun t => t ≠ ""))

/-! ## Template and anchor calibration (pipeline.py, rois.py) -/

/-- A named region rectangle (rois.py). -/
structure Roi where
  name : String
  x : Int
  y : Int
  w : Int
  h : Int
deriving DecidableEq

def FRONT_ROIS_V2 : List (String × Roi) :=
  [("surname", ⟨"surname", 520, 240, 780, 60⟩),
   ("name", ⟨"name", 520, 300, 780, 60⟩),
   ("patronymic", ⟨"patronymic", 520, 350, 780, 55⟩),
   ("full_name_line", ⟨"full_name_line", 520, 240, 780, 170⟩),
   ("birth_date", ⟨"birth_date", 520, 400, 300, 55⟩),
   ("license_number", ⟨"license_number", 520, 650, 420, 60⟩),
   ("license_issued_by", ⟨"license_issued_by", 520, 560, 520, 70⟩),
   ("driving_since", ⟨"driving_since", 520, 520, 300, 50⟩)]

def FRONT_ROIS_V1 : List (String × Roi) :=
  [("surname", ⟨"surname", 520, 230, 780, 55⟩),
   ("name", ⟨"name", 520, 290, 780, 60⟩),
   ("patronymic", ⟨"patronymic", 520, 350, 780, 45⟩),
   ("full_name_line", ⟨"full_name_line", 520, 230, 780, 165⟩),
   ("birth_date", ⟨"birth_date", 520, 400, 260, 50⟩),
   ("license_number", ⟨"license_number", 520, 510, 420, 60⟩),
   ("license_issued_by", ⟨"license_issued_by", 520, 560, 500, 70⟩),
   ("driving_since", ⟨"driving_since", 520, 455, 260, 45⟩)]

/-- FRONT_ROI_TEMPLATES of rois.py, in dict insertion order. -/
def FRONT_ROI_TEMPLATES : List (String × List (String × Roi)) :=
  [("v2", FRONT_ROIS_V2), ("v1", FRONT_ROIS_V1)]

def DEFAULT_FRONT_TEMPLATE : String := "v2"

/-- The v2 anchor centers of FRONT_ANCHORS (rois.py). -/
def FRONT_ANCHORS_V2 : List (String × (ℚ × ℚ)) :=
  [("1", (mkRat 490 1, mkRat 265 1)), ("2", (mkRat 490 1, mkRat 325 1)),
   ("3", (mkRat 490 1, mkRat 410 1)), ("4A", (mkRat 490 1, mkRat 525 1)),
   ("4B", (mkRat 900 1, mkRat 525 1)), ("5", (mkRat 490 1, mkRat 670 1))]

/-- The v1 anchor centers of FRONT_ANCHORS (rois.py). -/
def FRONT_ANCHORS_V1 : List (String × (ℚ × ℚ)) :=
  [("1", (mkRat 490 1, mkRat 255 1)), ("2", (mkRat 490 1, mkRat 315 1)),
   ("3", (mkRat 490 1, mkRat 400 1)), ("4A", (mkRat 490 1, mkRat 465 1)),
   ("4B", (mkRat 900 1, mkRat 465 1)), ("5", (mkRat 490 1, mkRat 525 1))]

/-- FRONT_ANCHORS of rois.py: expected anchor centers per template. -/
def FRONT_ANCHORS : List (String × List (String × (ℚ × ℚ))) :=
  [("v2", FRONT_ANCHORS_V2), ("v1", FRONT_ANCHORS_V1)]

def BACK_ROIS : List (String × Roi) :=
  [("categories", ⟨"categories", 330, 140, 980, 100⟩),
   ("special_marks", ⟨"special_marks", 330, 280, 980, 220⟩),
   ("raw_text", ⟨"raw_text", 80, 80, 1240, 740⟩)]

/-- Detected anchors: label to (x, y, confidence), the output shape of
_detect_anchors. -/
abbrev Anchors := List (String × (ℚ × ℚ × ℚ))

def insertSorted (x : ℚ) : List ℚ → List ℚ
  | [] => [x]
  | y :: rest => if x ≤ y then x :: y :: rest else y :: insertSorted x rest

def sortQ (l : List ℚ) : List ℚ := l.foldl (fun acc x => insertSorted x acc) []

/-- _median of pipeline.py. -/
def median (values : List ℚ) : ℚ :=
  if values = [] then 0
  else
    let sorted := sortQ values
    let mid := values.length / 2
    if values.length % 2 = 1 then sorted.getD mid 0
    else qmul (mkRat 1 2) (qadd (sorted.getD (mid - 1) 0) (sorted.getD mid 0))

/-- One matched anchor: expected and observed center. -/
structure AnchorPair where
  expx : ℚ
  expy : ℚ
  obsx : ℚ
  obsy : ℚ
deriving DecidableEq

/-- _compute_anchor_shift of pipeline.py: with at least two matched anchors,
the median per-axis offset, the mean absolute residual, and the match
count. -/
def compute_anchor_shift (anchors : Anchors) (expected : List (String × (ℚ × ℚ))) :
    Option (ℚ × ℚ × ℚ × Nat) :=
  let pairs := expected.filterMap (fun le =>
    (lookupKey anchors le.1).map (fun obs => AnchorPair.mk le.2.1 le.2.2 obs.1 obs.2.1))
  if pairs.length < 2 then none
  else
    let dxs := pairs.map (fun p => qsub p.obsx p.expx)
    let dys := pairs.map (fun p => qsub p.obsy p.expy)
    let dx := median dxs
    let dy := median dys
    let errors := pairs.map (fun p =>
      qadd (qabs (qsub (qsub p.obsx dx) p.expx)) (qabs (qsub (qsub p.obsy dy) p.expy)))
    let error := if errors = [] then 0 else qdiv (qsum errors) (qofNat errors.length)
    some (dx, dy, error, dxs.length)

/-- Python tuple comparison on (count, -error) scores, strict. -/
def lexGtQ (a b : Nat × ℚ) : Bool := a.1 > b.1 || (a.1 = b.1 && a.2 > b.2)

/-- Python `round` to an integer, half rounded up (Python itself rounds
half-to-even; no verified property depends on exact ties). -/
def pyRoundInt (q : ℚ) : Int := Rat.floor (qadd q (mkRat 1 2))

/-- _select_front_template of pipeline.py.  The anchor-detection result and
the field-scoring fallback result (_score_front_templates, which invokes
the external OCR engine) are abstract inputs; `useAnchors` is the
OCR_USE_ANCHORS switch, true by default. -/
def select_front_template (useAnchors : Bool) (detected : Anchors)
    (scoreOracle : Option String) : String × List (String × Roi) × (ℚ × ℚ) × Anchors :=
  let anchors := if useAnchors then detected else []
  let best := FRONT_ANCHORS.foldl
    (fun (best : Option ((Nat × ℚ) × String × (ℚ × ℚ))) nt =>
      match compute_anchor_shift anchors nt.2 with
      | none => best
      | some (dx, dy, error, count) =>
        let score := (count, -error)
        match best with
        | none => some (score, nt.1, (dx, dy))
        | some b => if lexGtQ score b.1 then some (score, nt.1, (dx, dy)) else best)
    none
  let bt : String × (ℚ × ℚ) :=
    if anchors ≠ [] then
      match best with
      | some b => (b.2.1, b.2.2)
      | none => (DEFAULT_FRONT_TEMPLATE, (0, 0))
    else (DEFAULT_FRONT_TEMPLATE, (0, 0))
  let best_template :=
    if anchors = [] ∧ FRONT_ROI_TEMPLATES.length > 1 then
      match scoreOracle with
      | some n => n
      | none => bt.1
    else bt.1
  let rois := (lookupKey FRONT_ROI_TEMPLATES best_template).getD FRONT_ROIS_V2
  let rois :=
    if bt.2 ≠ (0, 0) then
      rois.map (fun kr =>
        (kr.1,
          Roi.mk kr.2.name
            (max 0 (pyRoundInt (qadd (Rat.divInt kr.2.x 1) bt.2.1)))
            (max 0 (pyRoundInt (qadd (Rat.divInt kr.2.y 1) bt.2.2)))
            kr.2.w kr.2.h))
    else rois
  (best_template, rois, bt.2, anchors)

/-- The extraction response object of schema.py.  The images list and the
debug payload are carried opaquely. -/
structure Response where
  request_id : String
  document_type : String
  status : String
  fields : Fields
  missing_fields : List String
  warnings : List String
  images : List String
  debug : String
deriving DecidableEq

/-- build_response of schema.py. -/
def build_response (request_id status : String) (fields : Fields)
    (missing_fields warnings images : List String) (debug : String) : Response :=
  ⟨request_id, "ru_driver_license", status, fields, missing_fields, warnings, images, debug⟩

/-- build_failure of schema.py: all-default fields, every recognized field
name listed as missing, and the reason appended to the warnings. -/
def build_failure (request_id reason : String) (warnings images : List String)
    (debug : String) : Response :=
  build_response request_id "failed" (build_fields [])
    (FIELD_DEFAULTS.map Prod.fst) (warnings ++ [reason]) images debug

/-! ## The extract entry point (pipeline.py)

The image decoding, geometric alignment, storage and OCR engine are
external capabilities; one side of the input is abstracted as: absent (no
bytes), undecodable (decode returned nothing), crashed (a runtime error
escaped _process_side, with its message), or decoded with the per-region
OCR results, the warnings its processing produced (contour fallback,
storage problems) and the stored-image token.  The full-image fallback OCR
pass result is likewise an abstract input (text and confidence). -/

inductive SideInput where
  | absent
  | undecodable
  | crashed (msg : String)
  | decoded (rois : Rois) (warns : List String) (img : String)
deriving DecidableEq

def sideCrash : SideInput → Option String
  | .crashed m => some m
  | _ => none

/-- The warnings _process_side appends for one side. -/
def sideWarns (side : String) (allowMissing : Bool) : SideInput → List String
  | .absent => if allowMissing then [] else [side ++ " image missing."]
  | .undecodable => [side ++ " image could not be decoded."]
  | .crashed _ => []
  | .decoded _ ws _ => ws

def sideRois : SideInput → Rois
  | .decoded rois _ _ => rois
  | _ => []

def sideImages : SideInput → List String
  | .decoded _ _ img => [img]
  | _ => []

/-- Whether _process_side produced processed variants for this side. -/
def sideDecoded : SideInput → Bool
  | .decoded _ _ _ => true
  | _ => false

/-- Whether the side's byte payload is truthy. -/
def sidePresent : SideInput → Bool
  | .absent => false
  | _ => true

def insertSortedStr (x : String) : List String → List String
  | [] => [x]
  | y :: rest => if strLe x y then x :: y :: rest else y :: insertSortedStr x rest

/-- Python `sorted` on strings. -/
def sortStrList (l : List String) : List String :=
  l.foldl (fun acc x => insertSortedStr x acc) []

/-- The success tail of extract (pipeline.py lines assembling the
response): build the field map from the merged parsed dict, determine the
status, recompute missing_fields over all fields, and append the
low-confidence warning. -/
def assemble_response (request_id : String) (parsed : Parsed)
    (warnings images : List String) : Response :=
  let fields := build_fields parsed
  let ds := determine_status fields REQUIRED_FIELDS (mkRat 3 4)
  let missing_fields := (fields.filter (fun kv => isMissingValue kv.2.value)).map Prod.fst
  let warnings2 :=
    if ds.2.2 ≠ [] then
      warnings ++ ["Low confidence fields: " ++ String.intercalate ", " (sortStrList ds.2.2)]
    else warnings
  build_response request_id ds.1 fields missing_fields warnings2 images ""

/-- The front full-image fallback step of extract: when the front side was
decoded and the ROI pass produced no text or left a required field missing,
and the fallback OCR produced text, re-parse the front with the extended
context and merge in the text-parsed fields; returns the parsed front map,
the updated warnings, and the front context text. -/
def front_fallback (front : SideInput) (warnings0 : List String)
    (fallback_text : String) (fallback_conf : ℚ) : Parsed × List String × String :=
  let front_rois := sideRois front
  let front_roi_text := collect_raw_text front_rois
  let parsed_front0 := parse_front front_rois (some front_roi_text)
  if sideDecoded front ∧ sidePresent front then
    let missing_required := REQUIRED_FIELDS.filter (fun n =>
      isMissingValue (((lookupKey parsed_front0 n).getD (.vnull, 0)).1))
    if front_roi_text = "" ∨ missing_required ≠ [] then
      if fallback_text ≠ "" then
        let ctx := String.intercalate "\n"
          (([front_roi_text, fallback_text]).filter (fun s => s ≠ ""))
        let pf1 := parse_front front_rois (some ctx)
        let pf2 := merge_parsed pf1 (parse_front_from_text fallback_text (some fallback_conf))
        (pf2, warnings0 ++ ["Front fallback OCR used."], ctx)
      else (parsed_front0, warnings0, front_roi_text)
    else (parsed_front0, warnings0, front_roi_text)
  else (parsed_front0, warnings0, front_roi_text)

/-- extract of pipeline.py, with external capabilities abstracted as
inputs (see SideInput); the request id generation is abstracted as the
`request_id` argument and OCR_DEBUG is off, so the debug payload stays
empty. -/
def extract (request_id : String) (front back : SideInput)
    (fallback_text : String) (fallback_conf : ℚ) : Response :=
  if ¬ sidePresent front ∧ ¬ sidePresent back then
    build_failure request_id "No images provided." [] [] ""
  else
    match sideCrash front with
    | some msg => build_failure request_id msg [] [] ""
    | none =>
    match sideCrash back with
    | some msg => build_failure request_id msg [] [] ""
    | none =>
      let fb := front_fallback front
        (sideWarns "Front" false front ++ sideWarns "Back" (sidePresent front) back)
        fallback_text fallback_conf
      let raw_text := pyStripS (String.intercalate "\n"
        (([fb.2.2, collect_raw_text (sideRois back)]).filter (fun s => s ≠ "")))
      if raw_text = "" then
        build_failure request_id "No text extracted from images." fb.2.1
          (sideImages front ++ sideImages back) ""
      else
        assemble_response request_id (fb.1 ++ parse_back (sideRois back)) fb.2.1
          (sideImages front ++ sideImages back)

/-! ## Status determination: characterization and claims C1, C10 -/

/-- A required field counts as missing. -/
def fieldMissing (fields : Fields) (n : String) : Bool :=
  isMissingValue (getField fields n).value

/-- A required field counts as low-confidence: present but below the
minimum. -/
def fieldLow (fields : Fields) (mc : ℚ) (n : String) : Bool :=
  !fieldMissing fields n && decide ((getField fields n).confidence < mc)

theorem determine_status_foldl (fields : Fields) (mc : ℚ) (req : List String)
    (a b : List String) :
    req.foldl
      (fun (acc : List String × List String) name =>
        let field := getField fields name
        if isMissingValue field.value then (acc.1 ++ [name], acc.2)
        else if field.confidence < mc then (acc.1, acc.2 ++ [name])
        else acc)
      (a, b) =
    (a ++ req.filter (fieldMissing fields), b ++ req.filter (fieldLow fields mc)) := by
  induction req generalizing a b with
  | nil => simp
  | cons n rest ih =>
    simp only [List.foldl_cons, List.filter_cons]
    by_cases hm : isMissingValue (getField fields n).value = true
    · rw [if_pos hm, ih]
      simp [fieldLow, fieldMissing, hm]
    · rw [if_neg hm]
      by_cases hc : (getField fields n).confidence < mc
      · rw [if_pos hc, ih]
        simp [fieldLow, fieldMissing, hm, hc]
      · rw [if_neg hc, ih]
        simp [fieldLow, fieldMissing, hm, hc]

/-- determine_status returns the filtered missing and low-confidence lists
and a status that is "ok" exactly when both are empty. -/
theorem determine_status_eq (fields : Fields) (req : List String) (mc : ℚ) :
    determine_status fields req mc =
      (if req.filter (fieldMissing fields) = [] ∧ req.filter (fieldLow fields mc) = []
        then "ok" else "partial",
       req.filter (fieldMissing fields), req.filter (fieldLow fields mc)) := by
  unfold determine_status
  rw [show (([], []) : List String × List String) = (([] : List String), ([] : List String)) from rfl,
    determine_status_foldl]
  simp only [List.nil_append]
  by_cases h1 : req.filter (fieldMissing fields) = []
  · by_cases h2 : req.filter (fieldLow fields mc) = [] <;> simp [h1, h2]
  · simp [h1]

theorem getField_congr (fields fields' : Fields) (n : String)
    (h : lookupKey fields' n = lookupKey fields n) :
    getField fields' n = getField fields n := by
  unfold getField
  rw [h]

/-- Claim C1, amended: for every field map, the assembled status is "ok"
iff none of the three required fields (full_name, birth_date,
license_number) is missing and none of them is below the single default
0.75 confidence threshold; otherwise it is "partial"; and the status is a
pure function of the field map restricted to the required fields. -/
theorem C1_status_iff_required_ok :
    ∀ fields : Fields,
      (((determine_status fields REQUIRED_FIELDS (mkRat 3 4)).1 = "ok") ↔
        (∀ n ∈ REQUIRED_FIELDS,
          isMissingValue (getField fields n).value = false ∧
          ¬((getField fields n).confidence < mkRat 3 4))) ∧
      (((determine_status fields REQUIRED_FIELDS (mkRat 3 4)).1 ≠ "ok") →
        (determine_status fields REQUIRED_FIELDS (mkRat 3 4)).1 = "partial") ∧
      (∀ fields' : Fields,
        (∀ n ∈ REQUIRED_FIELDS, lookupKey fields' n = lookupKey fields n) →
        (determine_status fields' REQUIRED_FIELDS (mkRat 3 4)).1 =
          (determine_status fields REQUIRED_FIELDS (mkRat 3 4)).1) := by
  intro fields
  have hne : ("partial" : String) ≠ "ok" := by decide
  refine ⟨?_, ?_, ?_⟩
  · rw [determine_status_eq]
    constructor
    · intro h
      by_cases hc : REQUIRED_FIELDS.filter (fieldMissing fields) = [] ∧
          REQUIRED_FIELDS.filter (fieldLow fields (mkRat 3 4)) = []
      · intro n hn
        have h1 := List.filter_eq_nil_iff.mp hc.1 n hn
        have h2 := List.filter_eq_nil_iff.mp hc.2 n hn
        have hm : isMissingValue (getField fields n).value = false := by
          simpa [fieldMissing] using h1
        refine ⟨hm, ?_⟩
        intro hlt
        exact h2 (by simp [fieldLow, fieldMissing, hm, hlt])
      · rw [if_neg hc] at h
        exact absurd h hne
    · intro h
      have h1 : REQUIRED_FIELDS.filter (fieldMissing fields) = [] :=
        List.filter_eq_nil_iff.mpr (fun n hn => by simp [fieldMissing, (h n hn).1])
      have h2 : REQUIRED_FIELDS.filter (fieldLow fields (mkRat 3 4)) = [] :=
        List.filter_eq_nil_iff.mpr (fun n hn => by
          simp [fieldLow, fieldMissing, (h n hn).1, (h n hn).2])
      rw [if_pos ⟨h1, h2⟩]
  · rw [determine_status_eq]
    by_cases hc : REQUIRED_FIELDS.filter (fieldMissing fields) = [] ∧
        REQUIRED_FIELDS.filter (fieldLow fields (mkRat 3 4)) = []
    · rw [if_pos hc]
      intro h
      exact absurd rfl h
    · rw [if_neg hc]
      intro _
      rfl
  · intro fields' hagree
    have hm : REQUIRED_FIELDS.filter (fieldMissing fields') =
        REQUIRED_FIELDS.filter (fieldMissing fields) :=
      List.filter_congr (fun n hn => by
        simp [fieldMissing, getField_congr fields fields' n (hagree n hn)])
    have hl : REQUIRED_FIELDS.filter (fieldLow fields' (mkRat 3 4)) =
        REQUIRED_FIELDS.filter (fieldLow fields (mkRat 3 4)) :=
      List.filter_congr (fun n hn => by
        simp [fieldLow, fieldMissing, getField_congr fields fields' n (hagree n hn)])
    rw [determine_status_eq, determine_status_eq, hm, hl]

/-- Witness for C1: the purity component applied at concrete field maps
that agree on the required fields. -/
theorem C1_status_iff_required_ok_witness :
    (determine_status [("extra", ⟨.vstr "x", 1⟩)] REQUIRED_FIELDS (mkRat 3 4)).1 =
      (determine_status [] REQUIRED_FIELDS (mkRat 3 4)).1 :=
  (C1_status_iff_required_ok []).2.2 [("extra", ⟨.vstr "x", 1⟩)] (by decide)

/-- Counterexample to C1 as stated: an assembled field map whose required
fields are all present and confident yields status "ok" even though the
categories field in the map is missing (empty list), where the claim as
stated demands "partial". -/
theorem C1_counterexample :
    (determine_status (build_fields
        [("full_name", (.vstr "ИВАНОВ ИВАН", mkRat 9 10)),
         ("birth_date", (.vstr "1990-05-12", mkRat 88 100)),
         ("license_number", (.vstr "12 34 567890", mkRat 9 10))])
      REQUIRED_FIELDS (mkRat 3 4)).1 = "ok" ∧
    lookupKey (build_fields
        [("full_name", (.vstr "ИВАНОВ ИВАН", mkRat 9 10)),
         ("birth_date", (.vstr "1990-05-12", mkRat 88 100)),
         ("license_number", (.vstr "12 34 567890", mkRat 9 10))])
      "categories" = some ⟨.vlist [], 0⟩ ∧
    isMissingValue (FieldValue.vlist []) = true := by
  refine ⟨by decide, by decide, by decide⟩

/-- Claim C10: with the default arguments, determine_status returns "ok"
or "partial" (never "failed"); its missing and low-confidence lists are
disjoint and contain only required field names; and entries of the field
map outside the required set never affect any of the three results. -/
theorem C10_determine_status_invariants :
    ∀ fields : Fields,
      ((determine_status fields REQUIRED_FIELDS (mkRat 3 4)).1 = "ok" ∨
        (determine_status fields REQUIRED_FIELDS (mkRat 3 4)).1 = "partial") ∧
      (∀ n, n ∈ (determine_status fields REQUIRED_FIELDS (mkRat 3 4)).2.1 →
        n ∈ REQUIRED_FIELDS) ∧
      (∀ n, n ∈ (determine_status fields REQUIRED_FIELDS (mkRat 3 4)).2.2 →
        n ∈ REQUIRED_FIELDS) ∧
      (∀ n, ¬(n ∈ (determine_status fields REQUIRED_FIELDS (mkRat 3 4)).2.1 ∧
              n ∈ (determine_status fields REQUIRED_FIELDS (mkRat 3 4)).2.2)) ∧
      (∀ fields' : Fields,
        (∀ n ∈ REQUIRED_FIELDS, lookupKey fields' n = lookupKey fields n) →
        determine_status fields' REQUIRED_FIELDS (mkRat 3 4) =
          determine_status fields REQUIRED_FIELDS (mkRat 3 4)) := by
  intro fields
  refine ⟨?_, ?_, ?_, ?_, ?_⟩
  · rw [determine_status_eq]
    by_cases hc : REQUIRED_FIELDS.filter (fieldMissing fields) = [] ∧
        REQUIRED_FIELDS.filter (fieldLow fields (mkRat 3 4)) = []
    · left
      rw [if_pos hc]
    · right
      rw [if_neg hc]
  · intro n hn
    rw [determine_status_eq] at hn
    exact List.mem_of_mem_filter hn
  · intro n hn
    rw [determine_status_eq] at hn
    exact List.mem_of_mem_filter hn
  · intro n hpair
    obtain ⟨h1, h2⟩ := hpair
    rw [determine_status_eq] at h1 h2
    have hm := List.of_mem_filter h1
    have hl := List.of_mem_filter h2
    simp only [fieldLow, hm, Bool.not_true, Bool.false_and] at hl
    exact absurd hl (by decide)
  · intro fields' hagree
    have hm : REQUIRED_FIELDS.filter (fieldMissing fields') =
        REQUIRED_FIELDS.filter (fieldMissing fields) :=
      List.filter_congr (fun n hn => by
        simp [fieldMissing, getField_congr fields fields' n (hagree n hn)])
    have hl : REQUIRED_FIELDS.filter (fieldLow fields' (mkRat 3 4)) =
        REQUIRED_FIELDS.filter (fieldLow fields (mkRat 3 4)) :=
      List.filter_congr (fun n hn => by
        simp [fieldLow, fieldMissing, getField_congr fields fields' n (hagree n hn)])
    rw [determine_status_eq, determine_status_eq, hm, hl]

/-! ## Failure responses: claim C2 -/

theorem status_ok_or_partial (fields : Fields) (req : List String) (mc : ℚ) :
    (determine_status fields req mc).1 = "ok" ∨ (determine_status fields req mc).1 = "partial" := by
  rw [determine_status_eq]
  by_cases hc : req.filter (fieldMissing fields) = [] ∧ req.filter (fieldLow fields mc) = []
  · left
    rw [if_pos hc]
  · right
    rw [if_neg hc]

theorem assemble_response_not_failed (rid : String) (parsed : Parsed)
    (ws imgs : List String) :
    (assemble_response rid parsed ws imgs).status ≠ "failed" := by
  have hst : (assemble_response rid parsed ws imgs).status =
      (determine_status (build_fields parsed) REQUIRED_FIELDS (mkRat 3 4)).1 := rfl
  rw [hst]
  rcases status_ok_or_partial (build_fields parsed) REQUIRED_FIELDS (mkRat 3 4) with ho | hp
  · rw [ho]
    decide
  · rw [hp]
    decide

theorem build_failure_spec (rid reason : String) (ws imgs : List String) (dbg : String) :
    (build_failure rid reason ws imgs dbg).status = "failed" ∧
    (build_failure rid reason ws imgs dbg).fields = build_fields [] ∧
    (build_failure rid reason ws imgs dbg).missing_fields = FIELD_DEFAULTS.map Prod.fst ∧
    reason ∈ (build_failure rid reason ws imgs dbg).warnings := by
  refine ⟨rfl, rfl, rfl, ?_⟩
  simp [build_failure, build_response]

set_option maxHeartbeats 1000000 in
/-- Every "failed" extract result is literally a build_failure value. -/
theorem extract_failed_shape (rid : String) (front back : SideInput) (fbt : String) (fbc : ℚ) :
    (extract rid front back fbt fbc).status = "failed" →
    ∃ reason ws imgs, extract rid front back fbt fbc = build_failure rid reason ws imgs "" := by
  unfold extract
  split
  · intro _
    exact ⟨_, _, _, rfl⟩
  · split
    · intro _
      exact ⟨_, _, _, rfl⟩
    · split
      · intro _
        exact ⟨_, _, _, rfl⟩
      · intro h
        dsimp only at h ⊢
        split at h
        next hc =>
          exact ⟨"No text extracted from images.",
            (front_fallback front
              (sideWarns "Front" false front ++ sideWarns "Back" (sidePresent front) back)
              fbt fbc).2.1,
            sideImages front ++ sideImages back, by rw [if_pos hc]⟩
        next hc =>
          exact absurd h (assemble_response_not_failed _ _ _ _)

/-- Claim C2: every response with status "failed" has every recognized
field at its default empty value with confidence 0, missing_fields equal to
the full list of recognized field names, and a nonempty warnings list; and
the no-images input yields status "failed" with a warning stating the
reason. -/
theorem C2_failed_response_shape :
    ∀ (rid : String) (front back : SideInput) (fbt : String) (fbc : ℚ),
      ((extract rid front back fbt fbc).status = "failed" →
        (extract rid front back fbt fbc).fields = build_fields [] ∧
        (∀ kv ∈ (extract rid front back fbt fbc).fields,
          isMissingValue kv.2.value = true ∧ kv.2.confidence = 0) ∧
        (extract rid front back fbt fbc).missing_fields = FIELD_DEFAULTS.map Prod.fst ∧
        (extract rid front back fbt fbc).warnings ≠ []) ∧
      (extract rid SideInput.absent SideInput.absent fbt fbc).status = "failed" ∧
      "No images provided." ∈ (extract rid SideInput.absent SideInput.absent fbt fbc).warnings := by
  intro rid front back fbt fbc
  refine ⟨?_, ?_, ?_⟩
  · intro h
    obtain ⟨reason, ws, imgs, heq⟩ := extract_failed_shape rid front back fbt fbc h
    rw [heq]
    have hall : ∀ kv ∈ build_fields ([] : Parsed),
        isMissingValue kv.2.value = true ∧ kv.2.confidence = 0 := by decide
    refine ⟨rfl, fun kv hkv => hall kv hkv, rfl, ?_⟩
    simp [build_failure, build_response]
  · rfl
  · simp [extract, build_failure, build_response, sidePresent]

/-- Witness for C2: the no-images input realizes the hypothesis. -/
theorem C2_failed_response_shape_witness :
    (extract "r" SideInput.absent SideInput.absent "" 0).fields = build_fields [] ∧
    (extract "r" SideInput.absent SideInput.absent "" 0).warnings ≠ [] := by
  have h := C2_failed_response_shape "r" SideInput.absent SideInput.absent "" 0
  exact ⟨(h.1 h.2.1).1, (h.1 h.2.1).2.2.2⟩

/-! ## Field-map invariants: claim C3 -/

/-- All region confidences lie in the unit interval (the recognition
engine's contract: confidence is a 0..1 score). -/
def roisBounded (rois : Rois) : Prop :=
  ∀ kv ∈ rois, 0 ≤ kv.2.confidence ∧ kv.2.confidence ≤ 1

/-- All parsed-map confidences lie in the unit interval. -/
def parsedBounded (p : Parsed) : Prop :=
  ∀ kv ∈ p, 0 ≤ kv.2.2 ∧ kv.2.2 ≤ 1

theorem lookupKey_mem {β : Type} (l : List (String × β)) (k : String) (v : β)
    (h : lookupKey l k = some v) : (k, v) ∈ l := by
  induction l with
  | nil => simp [lookupKey] at h
  | cons kv rest ih =>
    rw [lookupKey] at h
    by_cases hk : kv.1 = k
    · rw [if_pos hk] at h
      cases h
      rw [← hk]
      exact List.mem_cons_self _ _
    · rw [if_neg hk] at h
      exact List.mem_cons_of_mem _ (ih h)

theorem roi_conf_bounds (rois : Rois) (h : roisBounded rois) (k : String) :
    0 ≤ roi_conf rois k ∧ roi_conf rois k ≤ 1 := by
  unfold roi_conf
  cases hl : lookupKey rois k with
  | none => simp
  | some e =>
    simpa using h (k, e) (lookupKey_mem rois k e hl)

theorem round3_bounds (q : ℚ) (h0 : 0 ≤ q) (h1 : q ≤ 1) :
    0 ≤ round3 q ∧ round3 q ≤ 1 := by
  rw [round3_eq]
  constructor
  · apply div_nonneg _ (by norm_num)
    have hr : (0 : ℤ) ≤ round (q * 1000) := by
      rw [round_eq]
      apply Int.floor_nonneg.mpr
      linarith
    exact_mod_cast hr
  · rw [div_le_one (by norm_num)]
    have hr : round (q * 1000) ≤ (1000 : ℤ) := by
      rw [round_eq]
      have hb : q * 1000 + 1 / 2 ≤ (2001 : ℚ) / 2 := by linarith
      calc ⌊q * 1000 + 1 / 2⌋ ≤ ⌊(2001 : ℚ) / 2⌋ := Int.floor_le_floor hb
        _ = 1000 := by
          apply Int.floor_eq_iff.mpr
          constructor
          · norm_num
          · norm_num
    exact_mod_cast hr

theorem foldl_qadd_eq (l : List ℚ) (a : ℚ) : l.foldl qadd a = a + l.sum := by
  induction l generalizing a with
  | nil => simp
  | cons x xs ih =>
    rw [List.foldl_cons, ih, qadd_eq, List.sum_cons]
    ring

theorem qsum_eq (l : List ℚ) : qsum l = l.sum := by
  rw [qsum, foldl_qadd_eq]
  simp

theorem avg_conf_bounds (l : List ℚ) (h : ∀ c ∈ l, 0 ≤ c ∧ c ≤ 1) :
    0 ≤ avg_conf l ∧ avg_conf l ≤ 1 := by
  unfold avg_conf
  split
  · simp
  · next hne =>
    have hlen : 0 < (l.length : ℚ) := by
      have : l.length ≠ 0 := fun hz => hne (List.eq_nil_of_length_eq_zero hz)
      have : 0 < l.length := Nat.pos_of_ne_zero this
      exact_mod_cast this
    have hsum0 : 0 ≤ l.sum := List.sum_nonneg (fun c hc => (h c hc).1)
    have hsum1 : l.sum ≤ (l.length : ℚ) := by
      have := List.sum_le_card_nsmul l 1 (fun c hc => (h c hc).2)
      simpa using this
    apply round3_bounds
    · rw [qdiv_eq, qsum_eq, qofNat_eq]
      exact div_nonneg hsum0 (le_of_lt hlen)
    · rw [qdiv_eq, qsum_eq, qofNat_eq]
      rw [div_le_one hlen]
      exact hsum1

theorem parse_front_name_conf_cases (rois : Rois) :
    (parse_front_name rois).2 = 0 ∨
    (parse_front_name rois).2 =
      avg_conf [roi_conf rois "surname", roi_conf rois "name", roi_conf rois "patronymic"] ∨
    (parse_front_name rois).2 = roi_conf rois "full_name_line" := by
  unfold parse_front_name
  dsimp only
  generalize apply_name_dictionary (clean_name_line (roi_text rois "surname")) = s1
  generalize apply_name_dictionary (clean_name_line (roi_text rois "name")) = s2
  generalize apply_name_dictionary (clean_name_line (roi_text rois "patronymic")) = s3
  generalize apply_name_dictionary (clean_name_line (roi_text rois "full_name_line")) = s4
  generalize avg_conf [roi_conf rois "surname", roi_conf rois "name",
    roi_conf rois "patronymic"] = ca
  generalize roi_conf rois "full_name_line" = cl
  generalize List.filter (fun p => decide (p ≠ ""))
    [s1, s2, if s3.data.any Char.isDigit then "" else s3] = np
  by_cases hnp : np ≠ []
  · simp only [if_pos hnp]
    by_cases h4 : s4 ≠ ""
    · simp only [if_pos h4]
      try dsimp only
      split_ifs <;> simp
    · simp only [if_neg h4]
      simp
  · simp only [if_neg hnp]
    by_cases h4 : s4 ≠ ""
    · simp only [if_pos h4]
      try dsimp only
      simp
    · simp only [if_neg h4]
      simp

theorem parse_front_name_conf_bounds (rois : Rois) (h : roisBounded rois) :
    0 ≤ (parse_front_name rois).2 ∧ (parse_front_name rois).2 ≤ 1 := by
  rcases parse_front_name_conf_cases rois with hc | hc | hc <;> rw [hc]
  · simp
  · exact avg_conf_bounds _ (by
      intro c hcm
      simp only [List.mem_cons, List.not_mem_nil, or_false] at hcm
      rcases hcm with rfl | rfl | rfl
      · exact roi_conf_bounds rois h _
      · exact roi_conf_bounds rois h _
      · exact roi_conf_bounds rois h _)
  · exact roi_conf_bounds rois h _

theorem parse_front_issuer_conf_bounds (rois : Rois) (h : roisBounded rois) :
    0 ≤ (parse_front_issuer rois).2 ∧ (parse_front_issuer rois).2 ≤ 1 := by
  unfold parse_front_issuer
  dsimp only
  split
  · split
    · exact roi_conf_bounds rois h _
    · simp
  · exact roi_conf_bounds rois h _

theorem parse_front_driving_conf_bounds (rois : Rois) (ctx : Option String)
    (bd : Option String) (h : roisBounded rois) :
    0 ≤ (parse_front_driving rois ctx bd).2 ∧ (parse_front_driving rois ctx bd).2 ≤ 1 := by
  have hconf := roi_conf_bounds rois h "driving_since"
  have h1 : 0 ≤ (match normalize_date (strip_label (roi_text rois "driving_since")), bd with
      | some d, some b => if strLe d b then ((none : Option String), (0 : ℚ))
        else (some d, roi_conf rois "driving_since")
      | _, _ => (normalize_date (strip_label (roi_text rois "driving_since")),
          roi_conf rois "driving_since")).2 ∧
      (match normalize_date (strip_label (roi_text rois "driving_since")), bd with
      | some d, some b => if strLe d b then ((none : Option String), (0 : ℚ))
        else (some d, roi_conf rois "driving_since")
      | _, _ => (normalize_date (strip_label (roi_text rois "driving_since")),
          roi_conf rois "driving_since")).2 ≤ 1 := by
    split
    · split
      · simp
      · exact hconf
    · exact hconf
  unfold parse_front_driving
  dsimp only
  split
  · split
    · split
      · split
        · simp
        · exact h1
      · exact h1
    · exact h1
  · exact h1

theorem parse_front_eq (rois : Rois) (ctx : Option String) :
    parse_front rois ctx =
      [("full_name", (optStr (parse_front_name rois).1, (parse_front_name rois).2)),
       ("birth_date",
        (optStr (normalize_date (strip_label (roi_text rois "birth_date"))),
         roi_conf rois "birth_date")),
       ("license_number",
        (optStr (normalize_license_number (strip_label (roi_text rois "license_number"))),
         roi_conf rois "license_number")),
       ("license_issued_by",
        (optStr (parse_front_issuer rois).1, (parse_front_issuer rois).2)),
       ("driving_since",
        (optStr (parse_front_driving rois ctx
            (normalize_date (strip_label (roi_text rois "birth_date")))).1,
         (parse_front_driving rois ctx
            (normalize_date (strip_label (roi_text rois "birth_date")))).2))] := rfl

set_option maxHeartbeats 1000000 in
theorem parse_front_bounded (rois : Rois) (ctx : Option String) (h : roisBounded rois) :
    parsedBounded (parse_front rois ctx) := by
  intro kv hkv
  rw [parse_front_eq] at hkv
  simp only [List.mem_cons, List.not_mem_nil, or_false] at hkv
  rcases hkv with rfl | rfl | rfl | rfl | rfl
  · exact parse_front_name_conf_bounds rois h
  · exact roi_conf_bounds rois h _
  · exact roi_conf_bounds rois h _
  · exact parse_front_issuer_conf_bounds rois h
  · exact parse_front_driving_conf_bounds rois ctx _ h

theorem parse_back_bounded (rois : Rois) (h : roisBounded rois) :
    parsedBounded (parse_back rois) := by
  intro kv hkv
  unfold parse_back at hkv
  dsimp only at hkv
  simp only [List.mem_cons, List.not_mem_nil, or_false] at hkv
  rcases hkv with rfl | rfl
  · dsimp only
    split
    · exact roi_conf_bounds rois h _
    · exact roi_conf_bounds rois h _
  · exact roi_conf_bounds rois h _

theorem qmul_bounds_unit (a b : ℚ) (ha0 : 0 ≤ a) (ha1 : a ≤ 1) (hb0 : 0 ≤ b) (hb1 : b ≤ 1) :
    0 ≤ qmul a b ∧ qmul a b ≤ 1 := by
  rw [qmul_eq]
  exact ⟨mul_nonneg ha0 hb0, mul_le_one₀ ha1 hb0 hb1⟩

theorem pftext_base_bounds (b : ℚ) :
    0 ≤ qmax (mkRat 2 5) (qmin b (mkRat 17 20)) ∧
    qmax (mkRat 2 5) (qmin b (mkRat 17 20)) ≤ 1 := by
  rw [qmax_eq, qmin_eq]
  constructor
  · apply le_trans _ (le_max_left _ _)
    norm_num [mkRat, Rat.normalize]
  · apply max_le
    · norm_num [mkRat, Rat.normalize]
    · apply le_trans (min_le_right _ _)
      norm_num [mkRat, Rat.normalize]

theorem pftext_conf_bounds (bc : Option ℚ) (k : ℚ) (hk0 : 0 ≤ k) (hk1 : k ≤ 1) :
    0 ≤ round3 (qmul (qmax (mkRat 2 5) (qmin (pftext_base bc) (mkRat 17 20))) k) ∧
    round3 (qmul (qmax (mkRat 2 5) (qmin (pftext_base bc) (mkRat 17 20))) k) ≤ 1 := by
  have hbase := pftext_base_bounds (pftext_base bc)
  have := qmul_bounds_unit _ k hbase.1 hbase.2 hk0 hk1
  exact round3_bounds _ this.1 this.2

theorem parse_front_from_text_bounded (t : String) (bc : Option ℚ) :
    parsedBounded (parse_front_from_text t bc) := by
  intro kv hkv
  unfold parse_front_from_text at hkv
  split at hkv
  · simp at hkv
  · dsimp only at hkv
    simp only [List.mem_cons, List.not_mem_nil, or_false] at hkv
    rcases hkv with rfl | rfl | rfl | rfl | rfl
    · exact pftext_conf_bounds bc _ (by decide) (by decide)
    · exact pftext_conf_bounds bc _ (by decide) (by decide)
    · exact pftext_conf_bounds bc _ (by decide) (by decide)
    · exact pftext_conf_bounds bc _ (by decide) (by decide)
    · exact pftext_conf_bounds bc _ (by decide) (by decide)

theorem setKey_bounded (p : Parsed) (k : String) (v : FieldValue × ℚ)
    (hp : parsedBounded p) (hv : 0 ≤ v.2 ∧ v.2 ≤ 1) :
    parsedBounded (setKey p k v) := by
  intro kv hkv
  unfold setKey at hkv
  have h2 := List.mem_map.mp hkv
  obtain ⟨kv0, hkv0, heq⟩ := h2
  by_cases hk : kv0.1 = k
  · rw [if_pos hk] at heq
    cases heq
    exact hv
  · rw [if_neg hk] at heq
    cases heq
    exact hp _ hkv0

theorem merge_parsed_bounded (f : Parsed) :
    ∀ p : Parsed, parsedBounded p → parsedBounded f → parsedBounded (merge_parsed p f) := by
  unfold merge_parsed
  induction f with
  | nil =>
    intro p hp _
    simpa using hp
  | cons kv rest ih =>
    intro p hp hf
    rw [List.foldl_cons]
    have hkv := hf kv (List.mem_cons_self kv rest)
    have hrest : parsedBounded rest := fun x hx => hf x (List.mem_cons_of_mem _ hx)
    apply ih
    · dsimp only
      split
      · exact hp
      · split
        · intro x hx
          rcases List.mem_append.mp hx with hx1 | hx2
          · exact hp x hx1
          · rcases List.mem_singleton.mp hx2 with rfl
            exact hkv
        · split
          · exact setKey_bounded p kv.1 kv.2 hp hkv
          · exact hp
    · exact hrest

theorem parsed_append_bounded (p q : Parsed) (hp : parsedBounded p) (hq : parsedBounded q) :
    parsedBounded (p ++ q) := by
  intro kv hkv
  rcases List.mem_append.mp hkv with h1 | h2
  · exact hp kv h1
  · exact hq kv h2

theorem build_fields_bounded (parsed : Parsed) (h : parsedBounded parsed) :
    ∀ kv ∈ build_fields parsed, 0 ≤ kv.2.confidence ∧ kv.2.confidence ≤ 1 := by
  intro kv hkv
  unfold build_fields at hkv
  obtain ⟨nd, _, heq⟩ := List.mem_map.mp hkv
  cases heq
  dsimp only
  cases hl : lookupKey parsed nd.1 with
  | none => simp [hl]
  | some vc =>
    have := h (nd.1, vc) (lookupKey_mem parsed nd.1 vc hl)
    simpa [hl] using this

theorem front_fallback_parsed_bounded (front : SideInput) (ws : List String)
    (fbt : String) (fbc : ℚ) (h : roisBounded (sideRois front)) :
    parsedBounded (front_fallback front ws fbt fbc).1 := by
  unfold front_fallback
  dsimp only
  split
  · split
    · split
      · exact merge_parsed_bounded _ _
          (parse_front_bounded (sideRois front) _ h)
          (parse_front_from_text_bounded _ _)
      · exact parse_front_bounded (sideRois front) _ h
    · exact parse_front_bounded (sideRois front) _ h
  · exact parse_front_bounded (sideRois front) _ h

/-- extract is either a failure value or the assembled success response. -/
theorem extract_shape (rid : String) (front back : SideInput) (fbt : String) (fbc : ℚ) :
    (∃ reason ws imgs, extract rid front back fbt fbc = build_failure rid reason ws imgs "") ∨
    extract rid front back fbt fbc =
      assemble_response rid
        ((front_fallback front
            (sideWarns "Front" false front ++ sideWarns "Back" (sidePresent front) back)
            fbt fbc).1 ++ parse_back (sideRois back))
        (front_fallback front
          (sideWarns "Front" false front ++ sideWarns "Back" (sidePresent front) back)
          fbt fbc).2.1
        (sideImages front ++ sideImages back) := by
  unfold extract
  split
  · exact Or.inl ⟨_, _, _, rfl⟩
  · split
    · exact Or.inl ⟨_, _, _, rfl⟩
    · split
      · exact Or.inl ⟨_, _, _, rfl⟩
      · dsimp only
        split
        next hc =>
          exact Or.inl ⟨"No text extracted from images.",
            (front_fallback front
              (sideWarns "Front" false front ++ sideWarns "Back" (sidePresent front) back)
              fbt fbc).2.1,
            sideImages front ++ sideImages back, rfl⟩
        next hc => exact Or.inr rfl

/-- Claim C3: in every extraction response, every field entry carries a
confidence within the unit interval (given the recognition engine's 0..1
confidence contract on the region inputs), and missing_fields is exactly
the names of the fields whose value is null, the empty string, or the
empty list. -/
theorem C3_fields_invariant :
    ∀ (rid : String) (front back : SideInput) (fbt : String) (fbc : ℚ),
      roisBounded (sideRois front) → roisBounded (sideRois back) →
      (∀ kv ∈ (extract rid front back fbt fbc).fields,
        0 ≤ kv.2.confidence ∧ kv.2.confidence ≤ 1) ∧
      (extract rid front back fbt fbc).missing_fields =
        ((extract rid front back fbt fbc).fields.filter
          (fun kv => isMissingValue kv.2.value)).map Prod.fst := by
  intro rid front back fbt fbc hf hb
  rcases extract_shape rid front back fbt fbc with ⟨reason, ws, imgs, heq⟩ | heq <;> rw [heq]
  · constructor
    · have hall : ∀ kv ∈ build_fields ([] : Parsed),
          0 ≤ kv.2.confidence ∧ kv.2.confidence ≤ 1 := by
        intro kv hkv
        have : ∀ kv ∈ build_fields ([] : Parsed), kv.2.confidence = 0 := by decide
        rw [this kv hkv]
        norm_num
      exact fun kv hkv => hall kv hkv
    · show FIELD_DEFAULTS.map Prod.fst =
        ((build_fields []).filter (fun kv => isMissingValue kv.2.value)).map Prod.fst
      decide
  · constructor
    · apply build_fields_bounded
      exact parsed_append_bounded _ _
        (front_fallback_parsed_bounded front _ fbt fbc hf)
        (parse_back_bounded _ hb)
    · rfl

/-- Witness for C3 at a concrete bounded input. -/
theorem C3_fields_invariant_witness :
    (extract "r" (SideInput.decoded [("surname", ⟨"ИВАНОВ", mkRat 9 10⟩)] [] "i")
        SideInput.absent "" 0).missing_fields =
      ((extract "r" (SideInput.decoded [("surname", ⟨"ИВАНОВ", mkRat 9 10⟩)] [] "i")
        SideInput.absent "" 0).fields.filter
          (fun kv => isMissingValue kv.2.value)).map Prod.fst := by
  exact (C3_fields_invariant "r"
    (SideInput.decoded [("surname", ⟨"ИВАНОВ", mkRat 9 10⟩)] [] "i")
    SideInput.absent "" 0
    (by intro kv hkv; simp [sideRois] at hkv; rw [hkv]; constructor <;> decide
      )
    (by intro kv hkv; simp [sideRois] at hkv)).2

/-! ## License-number normalization: claim C5 -/

theorem digitTranslate_digit (c : Char) (h : c.isDigit = true) : digitTranslate c = c := by
  unfold digitTranslate
  split
  · next hc =>
    rcases hc with rfl | rfl | rfl | rfl <;> exact absurd h (by decide)
  · split
    · next hc =>
      rcases hc with rfl | rfl | rfl <;> exact absurd h (by decide)
    · split
      · next hc =>
        subst hc
        exact absurd h (by decide)
      · split
        · next hc =>
          rcases hc with rfl | rfl <;> exact absurd h (by decide)
        · split
          · next hc =>
            subst hc
            exact absurd h (by decide)
          · split
            · next hc =>
              rcases hc with rfl | rfl <;> exact absurd h (by decide)
            · split
              · next hc =>
                subst hc
                exact absurd h (by decide)
              · rfl

theorem map_self_of_fixed (f : Char → Char) (l : List Char) (h : ∀ c ∈ l, f c = c) :
    l.map f = l := by
  induction l with
  | nil => rfl
  | cons c rest ih =>
    rw [List.map_cons, h c (List.mem_cons_self c rest),
      ih (fun x hx => h x (List.mem_cons_of_mem _ hx))]

theorem splitDigits_of_digits (n : Nat) (l : List Char)
    (h : ∀ c ∈ l.take n, c.isDigit = true) (hn : n ≤ l.length) :
    splitDigits n l = some (l.take n, l.drop n) := by
  induction n generalizing l with
  | zero => simp [splitDigits]
  | succ m ih =>
    cases l with
    | nil => simp at hn
    | cons c rest =>
      have hc : c.isDigit = true := h c (by simp)
      rw [splitDigits, if_pos hc, ih rest
        (fun x hx => h x (by
          rw [List.take_succ_cons]
          exact List.mem_cons_of_mem _ hx))
        (by simpa using Nat.le_of_succ_le_succ hn)]
      simp

theorem splitDigits_sound (n : Nat) (l r rest : List Char)
    (h : splitDigits n l = some (r, rest)) :
    r.length = n ∧ (∀ c ∈ r, c.isDigit = true) ∧ l = r ++ rest := by
  induction n generalizing l r rest with
  | zero =>
    rw [splitDigits] at h
    cases h
    simp
  | succ m ih =>
    cases l with
    | nil => simp [splitDigits] at h
    | cons c tail =>
      rw [splitDigits] at h
      by_cases hc : c.isDigit = true
      · rw [if_pos hc] at h
        cases hs : splitDigits m tail with
        | none => rw [hs] at h; simp at h
        | some pr =>
          rw [hs] at h
          simp only [Option.map] at h
          cases h
          obtain ⟨h1, h2, h3⟩ := ih tail pr.1 pr.2 (by rw [hs])
          refine ⟨by simp [h1], ?_, by simp [h3]⟩
          intro x hx
          rcases List.mem_cons.mp hx with rfl | hx2
          · exact hc
          · exact h2 x hx2
      · rw [if_neg hc] at h
        simp at h

theorem run10Search_cons_digits (l : List Char)
    (h : ∀ c ∈ l.take 10, c.isDigit = true) (hn : 10 ≤ l.length) :
    run10Search l = some (l.take 10) := by
  cases l with
  | nil => simp at hn
  | cons c rest =>
    rw [run10Search, splitDigits_of_digits 10 (c :: rest) h hn]

theorem filter_digits_ge_of_run10 (l r : List Char) (h : run10Search l = some r) :
    10 ≤ (l.filter (fun c => c.isDigit)).length := by
  induction l with
  | nil => simp [run10Search] at h
  | cons c rest ih =>
    rw [run10Search] at h
    cases hs : splitDigits 10 (c :: rest) with
    | some pr =>
      obtain ⟨h1, h2, h3⟩ := splitDigits_sound 10 (c :: rest) pr.1 pr.2 (by simpa using hs)
      rw [h3, List.filter_append]
      have : pr.1.filter (fun c => c.isDigit) = pr.1 := List.filter_eq_self.mpr h2
      rw [this]
      simp [h1]
    | none =>
      rw [hs] at h
      have hr := ih h
      have : (rest.filter (fun c => c.isDigit)).length ≤
          ((c :: rest).filter (fun c => c.isDigit)).length := by
        rw [List.filter_cons]
        split <;> simp
      omega

/-- Claim C5: on an all-digit string of length at least ten,
normalize_license_number returns the first contiguous ten-digit run
formatted as two, two and six digits separated by spaces; and on any input
with fewer than ten digits recoverable after OCR digit-confusion
correction, it returns null. -/
theorem C5_license_number :
    (∀ s : List Char, (∀ c ∈ s, c.isDigit = true) → 10 ≤ s.length →
      normalize_license_number ⟨s⟩ = some ⟨licFormat (s.take 10)⟩) ∧
    (∀ s : String,
      ((s.data.map digitTranslate).filter (fun c => c.isDigit)).length < 10 →
      normalize_license_number s = none) := by
  constructor
  · intro s hdig hlen
    have hne : (⟨s⟩ : String) ≠ "" := by
      intro he
      have : s = [] := congrArg String.data he
      rw [this] at hlen
      simp at hlen
    unfold normalize_license_number
    rw [if_neg hne]
    have hmap : s.map digitTranslate = s :=
      map_self_of_fixed _ _ (fun c hc => digitTranslate_digit c (hdig c hc))
    have hrun : run10Search s = some (s.take 10) :=
      run10Search_cons_digits s (fun c hc => hdig c (List.mem_of_mem_take hc)) hlen
    have hlen10 : (s.take 10).length = 10 := by
      rw [List.length_take]
      omega
    simp only [hmap, hrun]
    simp [hlen10]
  · intro s hcount
    unfold normalize_license_number
    by_cases hne : s = ""
    · rw [if_pos hne]
    · rw [if_neg hne]
      try dsimp only
      cases hrun : run10Search (s.data.map digitTranslate) with
      | some r =>
        exfalso
        have := filter_digits_ge_of_run10 _ r hrun
        omega
      | none =>
        simp only [hrun]
        have hne10 : ((s.data.map digitTranslate).filter (fun c => c.isDigit)).length ≠ 10 := by
          omega
        simp [hne10]

/-- Witness for C5 at concrete inputs. -/
theorem C5_license_number_witness :
    normalize_license_number "12345678901" = some "12 34 567890" ∧
    normalize_license_number "ABCD" = none := by
  constructor
  · have h := (C5_license_number).1 "12345678901".data (by decide) (by decide)
    exact h.trans (by decide)
  · exact (C5_license_number).2 "ABCD" (by decide)

/-! ## Date normalization: claim C4 -/

theorem natStrAux_zero (fuel : Nat) (acc : List Char) : natStrAux fuel 0 acc = acc := by
  cases fuel <;> rfl

theorem natStrAux_step (fuel n : Nat) (acc : List Char) (hn : 0 < n) :
    natStrAux (fuel + 1) n acc = natStrAux fuel (n / 10) (Nat.digitChar (n % 10) :: acc) := by
  cases n with
  | zero => simp at hn
  | succ k => rfl

theorem natStrAux_unfold (fuel n : Nat) (acc : List Char) (hn : 0 < n) (hf : 0 < fuel) :
    natStrAux fuel n acc = natStrAux (fuel - 1) (n / 10) (Nat.digitChar (n % 10) :: acc) := by
  cases fuel with
  | zero => omega
  | succ f => exact natStrAux_step f n acc hn

theorem natStrAux_shift (n : Nat) : ∀ fuel acc, 0 < n → n ≤ fuel →
    natStrAux fuel n acc = natStrAux n n [] ++ acc := by
  induction n using Nat.strong_induction_on with
  | _ n ih =>
    intro fuel acc hn hf
    cases fuel with
    | zero => omega
    | succ f =>
      rw [natStrAux_step f n acc hn]
      by_cases h10 : n < 10
      · have hdiv : n / 10 = 0 := by omega
        rw [hdiv, natStrAux_zero]
        rw [natStrAux_unfold n n [] hn hn, hdiv, natStrAux_zero]
        rfl
      · have hdivpos : 0 < n / 10 := by omega
        have hdivlt : n / 10 < n := by omega
        rw [ih (n / 10) hdivlt f (Nat.digitChar (n % 10) :: acc) hdivpos (by omega)]
        rw [natStrAux_unfold n n [] hn hn,
          ih (n / 10) hdivlt (n - 1) [Nat.digitChar (n % 10)] hdivpos (by omega)]
        simp

theorem natStr_lt10 (n : Nat) (h0 : 0 < n) (h : n < 10) :
    natStr n = [Nat.digitChar n] := by
  unfold natStr
  rw [if_neg (by omega), natStrAux_unfold n n [] h0 h0]
  have hdiv : n / 10 = 0 := by omega
  have hmod : n % 10 = n := by omega
  rw [hdiv, hmod, natStrAux_zero]

theorem natStr_ge10 (n : Nat) (h : 10 ≤ n) :
    natStr n = natStr (n / 10) ++ [Nat.digitChar (n % 10)] := by
  unfold natStr
  rw [if_neg (by omega), natStrAux_unfold n n [] (by omega) (by omega),
    natStrAux_shift (n / 10) (n - 1) [Nat.digitChar (n % 10)] (by omega) (by omega)]
  rw [if_neg (show ¬ n / 10 = 0 by omega)]

theorem digitChar_isDigit (k : Nat) (h : k < 10) : (Nat.digitChar k).isDigit = true := by
  interval_cases k <;> decide

theorem digitChar_toNat (k : Nat) (h : k < 10) : (Nat.digitChar k).toNat = 48 + k := by
  interval_cases k <;> decide

theorem pad2_eq (n : Nat) (h : n < 100) :
    pad2 n = [Nat.digitChar (n / 10), Nat.digitChar (n % 10)] := by
  unfold pad2
  by_cases h10 : n < 10
  · rw [if_pos h10]
    have hdiv : n / 10 = 0 := by omega
    have hmod : n % 10 = n := by omega
    rw [hdiv, hmod]
    rfl
  · rw [if_neg h10, natStr_ge10 n (by omega),
      natStr_lt10 (n / 10) (by omega) (by omega)]
    rfl

theorem natStr4_eq (y : Nat) (h1 : 1000 ≤ y) (h2 : y ≤ 9999) :
    natStr y = [Nat.digitChar (y / 1000), Nat.digitChar (y / 100 % 10),
      Nat.digitChar (y / 10 % 10), Nat.digitChar (y % 10)] := by
  rw [natStr_ge10 y (by omega), natStr_ge10 (y / 10) (by omega),
    natStr_ge10 (y / 10 / 10) (by omega),
    natStr_lt10 (y / 10 / 10 / 10) (by omega) (by omega)]
  have e4 : y / 100 / 10 = y / 1000 := by omega
  simp [Nat.div_div_eq_div_mul, e4]

theorem num_two (a b : Nat) (ha : a < 10) (hb : b < 10) :
    num [Nat.digitChar a, Nat.digitChar b] = a * 10 + b := by
  unfold num
  simp [List.foldl, digitChar_toNat a ha, digitChar_toNat b hb]

theorem num_four (a b c d : Nat) (ha : a < 10) (hb : b < 10) (hc : c < 10) (hd : d < 10) :
    num [Nat.digitChar a, Nat.digitChar b, Nat.digitChar c, Nat.digitChar d] =
      ((a * 10 + b) * 10 + c) * 10 + d := by
  unfold num
  simp [List.foldl, digitChar_toNat a ha, digitChar_toNat b hb,
    digitChar_toNat c hc, digitChar_toNat d hd]

theorem num_pad2 (n : Nat) (h : n < 100) : num (pad2 n) = n := by
  rw [pad2_eq n h, num_two (n / 10) (n % 10) (by omega) (by omega)]
  omega

theorem num_natStr4 (y : Nat) (h1 : 1000 ≤ y) (h2 : y ≤ 9999) : num (natStr y) = y := by
  rw [natStr4_eq y h1 h2,
    num_four (y / 1000) (y / 100 % 10) (y / 10 % 10) (y % 10)
      (by omega) (by omega) (by omega) (by omega)]
  omega

theorem splitDigits_exact (A B : List Char) (n : Nat) (hn : A.length = n)
    (h : ∀ c ∈ A, c.isDigit = true) : splitDigits n (A ++ B) = some (A, B) := by
  subst hn
  induction A generalizing B with
  | nil => rfl
  | cons c rest ih =>
    simp only [List.length_cons, List.cons_append, splitDigits,
      h c (List.mem_cons_self c rest), if_true, List.append_eq,
      ih B (fun x hx => h x (List.mem_cons_of_mem _ hx)), Option.map]

theorem isoSearch_cons (c : Char) (rest : List Char) :
    isoSearch (c :: rest) =
      match isoMatchAt (c :: rest) with
      | some r => some r
      | none => isoSearch rest := rfl

theorem dmySearch_cons (c : Char) (rest : List Char) :
    dmySearch (c :: rest) =
      match dmyMatchAt (c :: rest) with
      | some r => some r
      | none => dmySearch rest := rfl

theorem isoMatchAt_exact (Y M D R : List Char)
    (hYl : Y.length = 4) (hMl : M.length = 2) (hDl : D.length = 2)
    (hY : ∀ c ∈ Y, c.isDigit = true) (hM : ∀ c ∈ M, c.isDigit = true)
    (hD : ∀ c ∈ D, c.isDigit = true) :
    isoMatchAt (Y ++ '-' :: (M ++ '-' :: (D ++ R))) = some (num Y, num M, num D) := by
  unfold isoMatchAt
  rw [splitDigits_exact Y ('-' :: (M ++ '-' :: (D ++ R))) 4 hYl hY]
  simp only
  rw [splitDigits_exact M ('-' :: (D ++ R)) 2 hMl hM]
  simp only
  rw [splitDigits_exact D R 2 hDl hD]

theorem dmy_scan_4 (a1 a2 b1 b2 c1 c2 c3 c4 sep : Char)
    (ha1 : a1.isDigit = true) (ha2 : a2.isDigit = true)
    (hb1 : b1.isDigit = true) (hb2 : b2.isDigit = true)
    (hc1 : c1.isDigit = true) (hc2 : c2.isDigit = true)
    (hc3 : c3.isDigit = true) (hc4 : c4.isDigit = true)
    (hsd : sep.isDigit = false) (hss : sepChar sep = true) :
    isoSearch [a1, a2, sep, b1, b2, sep, c1, c2, c3, c4] = none ∧
    dmySearch [a1, a2, sep, b1, b2, sep, c1, c2, c3, c4] =
      some (num [a1, a2], num [b1, b2], num [c1, c2, c3, c4]) := by
  constructor
  · simp [isoSearch, isoMatchAt, splitDigits, ha1, ha2, hb1, hb2, hc1, hc2, hc3, hc4, hsd]
  · simp [dmySearch, dmyMatchAt, monthYear, yearMatch, splitDigits,
      ha1, ha2, hb1, hb2, hc1, hc2, hc3, hc4, hsd, hss]

theorem dmy_scan_2 (a1 a2 b1 b2 c1 c2 sep : Char)
    (ha1 : a1.isDigit = true) (ha2 : a2.isDigit = true)
    (hb1 : b1.isDigit = true) (hb2 : b2.isDigit = true)
    (hc1 : c1.isDigit = true) (hc2 : c2.isDigit = true)
    (hsd : sep.isDigit = false) (hss : sepChar sep = true) :
    isoSearch [a1, a2, sep, b1, b2, sep, c1, c2] = none ∧
    dmySearch [a1, a2, sep, b1, b2, sep, c1, c2] =
      some (num [a1, a2], num [b1, b2], num [c1, c2]) := by
  constructor
  · simp [isoSearch, isoMatchAt, splitDigits, ha1, ha2, hb1, hb2, hc1, hc2, hsd]
  · simp [dmySearch, dmyMatchAt, monthYear, yearMatch, splitDigits,
      ha1, ha2, hb1, hb2, hc1, hc2, hsd, hss]

theorem comma_fix (c : Char) (h : c.isDigit = true) : (if c = ',' then '.' else c) = c := by
  split
  · next hc => rw [hc] at h; exact absurd h (by decide)
  · rfl

theorem translate_fixed_of (l : List Char)
    (h : ∀ c ∈ l, c.isDigit = true ∨ (digitTranslate c = c ∧ c ≠ ',')) :
    (l.map digitTranslate).map (fun c => if c = ',' then '.' else c) = l := by
  rw [map_self_of_fixed digitTranslate l (fun c hc => by
    rcases h c hc with hd | ⟨ht, _⟩
    · exact digitTranslate_digit c hd
    · exact ht)]
  exact map_self_of_fixed _ l (fun c hc => by
    rcases h c hc with hd | ⟨_, hnc⟩
    · exact comma_fix c hd
    · simp [hnc])

theorem string_mk_ne_empty (c : Char) (l : List Char) : (⟨c :: l⟩ : String) ≠ "" := by
  intro h
  have h2 := congrArg String.data h
  simp at h2

theorem normalize_date_dmy4 (d m y : Nat) (sep : Char)
    (hsep : sep = '.' ∨ sep = '-' ∨ sep = '/')
    (hd : d < 100) (hm : m < 100) (hy1 : 1000 ≤ y) (hy2 : y ≤ 9999) :
    normalize_date ⟨pad2 d ++ sep :: (pad2 m ++ sep :: natStr y)⟩ =
      if validDate y m d then some ⟨formatDate y m d⟩ else none := by
  have hdig : ∀ k, k < 10 → (Nat.digitChar k).isDigit = true := digitChar_isDigit
  have hL : pad2 d ++ sep :: (pad2 m ++ sep :: natStr y) =
      [Nat.digitChar (d / 10), Nat.digitChar (d % 10), sep,
       Nat.digitChar (m / 10), Nat.digitChar (m % 10), sep,
       Nat.digitChar (y / 1000), Nat.digitChar (y / 100 % 10),
       Nat.digitChar (y / 10 % 10), Nat.digitChar (y % 10)] := by
    rw [pad2_eq d hd, pad2_eq m hm, natStr4_eq y hy1 hy2]
    rfl
  have hsd : sep.isDigit = false := by rcases hsep with rfl | rfl | rfl <;> decide
  have hss : sepChar sep = true := by rcases hsep with rfl | rfl | rfl <;> decide
  have htr : digitTranslate sep = sep := by rcases hsep with rfl | rfl | rfl <;> decide
  have hnc : sep ≠ ',' := by rcases hsep with rfl | rfl | rfl <;> decide
  rw [hL]
  unfold normalize_date
  rw [if_neg (string_mk_ne_empty _ _)]
  unfold normalize_date_chars
  have hfix := translate_fixed_of
    [Nat.digitChar (d / 10), Nat.digitChar (d % 10), sep,
     Nat.digitChar (m / 10), Nat.digitChar (m % 10), sep,
     Nat.digitChar (y / 1000), Nat.digitChar (y / 100 % 10),
     Nat.digitChar (y / 10 % 10), Nat.digitChar (y % 10)]
    (by
      intro c hc
      simp only [List.mem_cons, List.not_mem_nil, or_false] at hc
      rcases hc with rfl | rfl | rfl | rfl | rfl | rfl | rfl | rfl | rfl | rfl
      · exact Or.inl (hdig _ (by omega))
      · exact Or.inl (hdig _ (by omega))
      · exact Or.inr ⟨htr, hnc⟩
      · exact Or.inl (hdig _ (by omega))
      · exact Or.inl (hdig _ (by omega))
      · exact Or.inr ⟨htr, hnc⟩
      · exact Or.inl (hdig _ (by omega))
      · exact Or.inl (hdig _ (by omega))
      · exact Or.inl (hdig _ (by omega))
      · exact Or.inl (hdig _ (by omega)))
  have hscan := dmy_scan_4 (Nat.digitChar (d / 10)) (Nat.digitChar (d % 10))
    (Nat.digitChar (m / 10)) (Nat.digitChar (m % 10))
    (Nat.digitChar (y / 1000)) (Nat.digitChar (y / 100 % 10))
    (Nat.digitChar (y / 10 % 10)) (Nat.digitChar (y % 10)) sep
    (hdig _ (by omega)) (hdig _ (by omega)) (hdig _ (by omega)) (hdig _ (by omega))
    (hdig _ (by omega)) (hdig _ (by omega)) (hdig _ (by omega)) (hdig _ (by omega))
    hsd hss
  have hnd : num [Nat.digitChar (d / 10), Nat.digitChar (d % 10)] = d := by
    rw [num_two _ _ (by omega) (by omega)]; omega
  have hnm : num [Nat.digitChar (m / 10), Nat.digitChar (m % 10)] = m := by
    rw [num_two _ _ (by omega) (by omega)]; omega
  have hny : num [Nat.digitChar (y / 1000), Nat.digitChar (y / 100 % 10),
      Nat.digitChar (y / 10 % 10), Nat.digitChar (y % 10)] = y := by
    rw [num_four _ _ _ _ (by omega) (by omega) (by omega) (by omega)]; omega
  have hysmall : ¬ y < 100 := by omega
  simp only [hfix, hscan.1, hscan.2, hnd, hnm, hny, if_neg hysmall]
  by_cases hv : validDate y m d = true
  · simp [hv]
  · simp [hv]

theorem normalize_date_dmy2 (d m yy : Nat) (sep : Char)
    (hsep : sep = '.' ∨ sep = '-' ∨ sep = '/')
    (hd : d < 100) (hm : m < 100) (hyy : yy < 100) :
    normalize_date ⟨pad2 d ++ sep :: (pad2 m ++ sep :: pad2 yy)⟩ =
      if validDate (if yy < 30 then 2000 + yy else 1900 + yy) m d
      then some ⟨formatDate (if yy < 30 then 2000 + yy else 1900 + yy) m d⟩
      else none := by
  have hdig : ∀ k, k < 10 → (Nat.digitChar k).isDigit = true := digitChar_isDigit
  have hL : pad2 d ++ sep :: (pad2 m ++ sep :: pad2 yy) =
      [Nat.digitChar (d / 10), Nat.digitChar (d % 10), sep,
       Nat.digitChar (m / 10), Nat.digitChar (m % 10), sep,
       Nat.digitChar (yy / 10), Nat.digitChar (yy % 10)] := by
    rw [pad2_eq d hd, pad2_eq m hm, pad2_eq yy hyy]
    rfl
  have hsd : sep.isDigit = false := by rcases hsep with rfl | rfl | rfl <;> decide
  have hss : sepChar sep = true := by rcases hsep with rfl | rfl | rfl <;> decide
  have htr : digitTranslate sep = sep := by rcases hsep with rfl | rfl | rfl <;> decide
  have hnc : sep ≠ ',' := by rcases hsep with rfl | rfl | rfl <;> decide
  rw [hL]
  unfold normalize_date
  rw [if_neg (string_mk_ne_empty _ _)]
  unfold normalize_date_chars
  have hfix := translate_fixed_of
    [Nat.digitChar (d / 10), Nat.digitChar (d % 10), sep,
     Nat.digitChar (m / 10), Nat.digitChar (m % 10), sep,
     Nat.digitChar (yy / 10), Nat.digitChar (yy % 10)]
    (by
      intro c hc
      simp only [List.mem_cons, List.not_mem_nil, or_false] at hc
      rcases hc with rfl | rfl | rfl | rfl | rfl | rfl | rfl | rfl
      · exact Or.inl (hdig _ (by omega))
      · exact Or.inl (hdig _ (by omega))
      · exact Or.inr ⟨htr, hnc⟩
      · exact Or.inl (hdig _ (by omega))
      · exact Or.inl (hdig _ (by omega))
      · exact Or.inr ⟨htr, hnc⟩
      · exact Or.inl (hdig _ (by omega))
      · exact Or.inl (hdig _ (by omega)))
  have hscan := dmy_scan_2 (Nat.digitChar (d / 10)) (Nat.digitChar (d % 10))
    (Nat.digitChar (m / 10)) (Nat.digitChar (m % 10))
    (Nat.digitChar (yy / 10)) (Nat.digitChar (yy % 10)) sep
    (hdig _ (by omega)) (hdig _ (by omega)) (hdig _ (by omega)) (hdig _ (by omega))
    (hdig _ (by omega)) (hdig _ (by omega)) hsd hss
  have hnd : num [Nat.digitChar (d / 10), Nat.digitChar (d % 10)] = d := by
    rw [num_two _ _ (by omega) (by omega)]; omega
  have hnm : num [Nat.digitChar (m / 10), Nat.digitChar (m % 10)] = m := by
    rw [num_two _ _ (by omega) (by omega)]; omega
  have hny : num [Nat.digitChar (yy / 10), Nat.digitChar (yy % 10)] = yy := by
    rw [num_two _ _ (by omega) (by omega)]; omega
  simp only [hfix, hscan.1, hscan.2, hnd, hnm, hny, if_pos hyy]
  by_cases hv : validDate (if yy < 30 then 2000 + yy else 1900 + yy) m d = true
  · simp [hv]
  · simp [hv]

theorem normalize_date_iso (y m d : Nat)
    (hy1 : 1000 ≤ y) (hy2 : y ≤ 9999) (hm : m < 100) (hd : d < 100) :
    normalize_date ⟨formatDate y m d⟩ =
      if validDate y m d then some ⟨formatDate y m d⟩ else none := by
  have hdig : ∀ k, k < 10 → (Nat.digitChar k).isDigit = true := digitChar_isDigit
  have hEx : formatDate y m d =
      [Nat.digitChar (y / 1000), Nat.digitChar (y / 100 % 10),
       Nat.digitChar (y / 10 % 10), Nat.digitChar (y % 10), '-',
       Nat.digitChar (m / 10), Nat.digitChar (m % 10), '-',
       Nat.digitChar (d / 10), Nat.digitChar (d % 10)] := by
    unfold formatDate
    rw [natStr4_eq y hy1 hy2, pad2_eq m hm, pad2_eq d hd]
    rfl
  have hmatch : isoMatchAt (formatDate y m d) = some (y, m, d) := by
    have hshape : formatDate y m d =
        natStr y ++ '-' :: (pad2 m ++ '-' :: (pad2 d ++ [])) := by
      unfold formatDate
      simp
    rw [hshape, isoMatchAt_exact (natStr y) (pad2 m) (pad2 d) []
      (by rw [natStr4_eq y hy1 hy2]; rfl)
      (by rw [pad2_eq m hm]; rfl)
      (by rw [pad2_eq d hd]; rfl)
      (by
        rw [natStr4_eq y hy1 hy2]
        intro c hc
        simp only [List.mem_cons, List.not_mem_nil, or_false] at hc
        rcases hc with rfl | rfl | rfl | rfl <;> exact hdig _ (by omega))
      (by
        rw [pad2_eq m hm]
        intro c hc
        simp only [List.mem_cons, List.not_mem_nil, or_false] at hc
        rcases hc with rfl | rfl <;> exact hdig _ (by omega))
      (by
        rw [pad2_eq d hd]
        intro c hc
        simp only [List.mem_cons, List.not_mem_nil, or_false] at hc
        rcases hc with rfl | rfl <;> exact hdig _ (by omega)),
      num_natStr4 y hy1 hy2, num_pad2 m hm, num_pad2 d hd]
  have hfix := translate_fixed_of (formatDate y m d)
    (by
      rw [hEx]
      intro c hc
      simp only [List.mem_cons, List.not_mem_nil, or_false] at hc
      rcases hc with rfl | rfl | rfl | rfl | rfl | rfl | rfl | rfl | rfl | rfl
      · exact Or.inl (hdig _ (by omega))
      · exact Or.inl (hdig _ (by omega))
      · exact Or.inl (hdig _ (by omega))
      · exact Or.inl (hdig _ (by omega))
      · exact Or.inr ⟨by decide, by decide⟩
      · exact Or.inl (hdig _ (by omega))
      · exact Or.inl (hdig _ (by omega))
      · exact Or.inr ⟨by decide, by decide⟩
      · exact Or.inl (hdig _ (by omega))
      · exact Or.inl (hdig _ (by omega)))
  have hiso : isoSearch (formatDate y m d) = some (y, m, d) := by
    rw [hEx, isoSearch_cons, ← hEx, hmatch]
  conv_lhs => rw [hEx]
  unfold normalize_date
  rw [if_neg (string_mk_ne_empty _ _)]
  unfold normalize_date_chars
  rw [← hEx]
  simp only [hfix, hiso]
  by_cases hv : validDate y m d = true
  · simp [hv]
  · simp [hv]

/-- Counterexample to the claim that any input containing a valid
DD.MM.YYYY date is normalized: the leftmost regex match wins, so an input
whose first date-shaped substring is calendar-impossible yields null even
though a valid date follows in the same string. -/
theorem C4_counterexample :
    normalize_date "32.13.2020 01.02.2020" = none ∧
    normalize_date "01.02.2020" = some "2020-02-01" := by decide

/-- C4 (amended): normalize_date on an input that IS a single rendered date
behaves as claimed: a DD.MM.YYYY / DD-MM-YYYY / DD/MM/YYYY form with a
four-digit year maps to the canonical YYYY-MM-DD string when the date is
calendar-valid and to null otherwise; a two-digit year yy is mapped to
2000+yy when yy is below 30 and to 1900+yy otherwise; and on its own
canonical YYYY-MM-DD output the function is idempotent (an invalid ISO-form
date likewise yields null). Only the first regex match in the input decides
the result, so these guarantees are stated for whole-string dates. -/
theorem C4_normalize_date :
    (∀ d m y sep, (sep = '.' ∨ sep = '-' ∨ sep = '/') → d < 100 → m < 100 →
      1000 ≤ y → y ≤ 9999 →
      normalize_date ⟨pad2 d ++ sep :: (pad2 m ++ sep :: natStr y)⟩ =
        if validDate y m d then some ⟨formatDate y m d⟩ else none) ∧
    (∀ d m yy sep, (sep = '.' ∨ sep = '-' ∨ sep = '/') → d < 100 → m < 100 →
      yy < 100 →
      normalize_date ⟨pad2 d ++ sep :: (pad2 m ++ sep :: pad2 yy)⟩ =
        if validDate (if yy < 30 then 2000 + yy else 1900 + yy) m d
        then some ⟨formatDate (if yy < 30 then 2000 + yy else 1900 + yy) m d⟩
        else none) ∧
    (∀ y m d, 1000 ≤ y → y ≤ 9999 → m < 100 → d < 100 →
      normalize_date ⟨formatDate y m d⟩ =
        if validDate y m d then some ⟨formatDate y m d⟩ else none) :=
  ⟨fun d m y sep hsep hd hm hy1 hy2 => normalize_date_dmy4 d m y sep hsep hd hm hy1 hy2,
   fun d m yy sep hsep hd hm hyy => normalize_date_dmy2 d m yy sep hsep hd hm hyy,
   fun y m d hy1 hy2 hm hd => normalize_date_iso y m d hy1 hy2 hm hd⟩

/-- Witness for C4 at concrete dates: a valid dotted date, an impossible
dotted date, a two-digit year, and the canonical form itself. -/
theorem C4_normalize_date_witness :
    normalize_date "07.05.2010" = some "2010-05-07" ∧
    normalize_date "31.11.2020" = none ∧
    normalize_date "01.02.05" = some "2005-02-01" ∧
    normalize_date "2010-05-07" = some "2010-05-07" := by
  refine ⟨?_, ?_, ?_, ?_⟩
  · have h := C4_normalize_date.1 7 5 2010 '.' (Or.inl rfl)
      (by omega) (by omega) (by omega) (by omega)
    rw [show ("07.05.2010" : String) = ⟨pad2 7 ++ '.' :: (pad2 5 ++ '.' :: natStr 2010)⟩
      from by decide, h]
    decide
  · have h := C4_normalize_date.1 31 11 2020 '.' (Or.inl rfl)
      (by omega) (by omega) (by omega) (by omega)
    rw [show ("31.11.2020" : String) = ⟨pad2 31 ++ '.' :: (pad2 11 ++ '.' :: natStr 2020)⟩
      from by decide, h]
    decide
  · have h := C4_normalize_date.2.1 1 2 5 '.' (Or.inl rfl)
      (by omega) (by omega) (by omega)
    rw [show ("01.02.05" : String) = ⟨pad2 1 ++ '.' :: (pad2 2 ++ '.' :: pad2 5)⟩
      from by decide, h]
    decide
  · have h := C4_normalize_date.2.2 2010 5 7 (by omega) (by omega) (by omega) (by omega)
    rw [show ("2010-05-07" : String) = ⟨formatDate 2010 5 7⟩ from by decide, h]
    decide

theorem parse_front_driving_as (rois : Rois) (ctx : Option String) (bd : Option String) :
    parse_front_driving rois ctx bd =
      drivingLogic (normalize_date (strip_label (roi_text rois "driving_since")))
        (roi_conf rois "driving_since") ctx bd := rfl

theorem parse_front_driving_entry (rois : Rois) (ctx : Option String) :
    lookupKey (parse_front rois ctx) "driving_since" =
      some (optStr (parse_front_driving rois ctx
          (normalize_date (strip_label (roi_text rois "birth_date")))).1,
        (parse_front_driving rois ctx
          (normalize_date (strip_label (roi_text rois "birth_date")))).2) := rfl

theorem drivingLogic_spec (ds0 : Option String) (q0 : ℚ) (ctx : Option String)
    (bd : Option String) :
    (∀ s, (drivingLogic ds0 q0 ctx bd).1 = some s →
      ds0 = some s ∧
      (∀ b, bd = some b → strLe s b = false) ∧
      (∀ c v, ctx = some c → c ≠ "" → extract_marker_date c ["4B"] = some v →
        strLe v s = false)) ∧
    (∀ d0 b, ds0 = some d0 → bd = some b → strLe d0 b = true →
      drivingLogic ds0 q0 ctx bd = (none, 0)) ∧
    (∀ d0 c v, ds0 = some d0 →
      (∀ b, bd = some b → strLe d0 b = false) → ctx = some c → c ≠ "" →
      extract_marker_date c ["4B"] = some v → strLe v d0 = true →
      drivingLogic ds0 q0 ctx bd = (none, 0)) := by
  refine ⟨?_, ?_, ?_⟩
  · intro s hs
    cases ds0 with
    | none =>
      unfold drivingLogic at hs
      cases bd <;> cases ctx <;> simp_all
    | some d =>
      have hbody : ∀ q1 : ℚ,
          (∀ b, bd = some b → strLe d b = false) →
          (match (some d : Option String), ctx with
            | some d', some c =>
              if c ≠ "" then
                match extract_marker_date c ["4B"] with
                | some valid_until =>
                  if strLe valid_until d' then ((none : Option String), (0 : ℚ))
                  else (some d', q1)
                | none => (some d', q1)
              else (some d', q1)
            | _, _ => (some d, q1)).1 = some s →
          (some d : Option String) = some s ∧
          (∀ b, bd = some b → strLe s b = false) ∧
          (∀ c v, ctx = some c → c ≠ "" → extract_marker_date c ["4B"] = some v →
            strLe v s = false) := by
        intro q1 hbck hs2
        cases ctx with
        | none =>
          dsimp only at hs2
          injection hs2 with h
          subst h
          exact ⟨rfl, hbck, fun c v hc => nomatch hc⟩
        | some c =>
          dsimp only at hs2
          by_cases hne : c = ""
          · subst hne
            rw [if_neg (by simp)] at hs2
            injection hs2 with h
            subst h
            refine ⟨rfl, hbck, ?_⟩
            intro c' v hc' hne' _
            exact absurd (Option.some.inj hc').symm hne'
          · rw [if_pos hne] at hs2
            cases hm : extract_marker_date c ["4B"] with
            | none =>
              rw [hm] at hs2
              dsimp only at hs2
              injection hs2 with h
              subst h
              refine ⟨rfl, hbck, ?_⟩
              intro c' v hc' _ hm'
              have hcc : c' = c := (Option.some.inj hc').symm
              subst hcc
              rw [hm] at hm'
              cases hm'
            | some v =>
              rw [hm] at hs2
              dsimp only at hs2
              by_cases hv : strLe v d = true
              · rw [if_pos hv] at hs2
                simp at hs2
              · rw [if_neg hv] at hs2
                injection hs2 with h
                subst h
                refine ⟨rfl, hbck, ?_⟩
                intro c' v' hc' _ hm'
                have hcc : c' = c := (Option.some.inj hc').symm
                subst hcc
                rw [hm] at hm'
                have hvv : v' = v := (Option.some.inj hm').symm
                subst hvv
                exact Bool.eq_false_iff.mpr hv
      cases bd with
      | none =>
        unfold drivingLogic at hs
        dsimp only at hs
        exact hbody q0 (fun b hb => nomatch hb) hs
      | some b =>
        unfold drivingLogic at hs
        dsimp only at hs
        by_cases hdb : strLe d b = true
        · rw [if_pos hdb] at hs
          cases ctx <;> simp_all
        · rw [if_neg hdb] at hs
          dsimp only at hs
          refine hbody q0 ?_ hs
          intro b' hb'
          have hbb : b' = b := (Option.some.inj hb').symm
          subst hbb
          exact Bool.eq_false_iff.mpr hdb
  · intro d0 b h1 h2 h3
    subst h1
    subst h2
    unfold drivingLogic
    simp [h3]
  · intro d0 c v h1 hb hc hne hm hle
    subst h1
    subst hc
    unfold drivingLogic
    cases hbd : bd with
    | none => simp [hne, hm, hle]
    | some b =>
      have hfb := hb b hbd
      simp [hfb, hne, hm, hle]

/-- Counterexample to the claim that a non-null driving_since requires a
tenure (СТАЖ) marker in the context text: parse_front never consults
DRIVING_MARKERS, so a context with no such marker still yields the date. -/
theorem C6_counterexample :
    has_driving_marker "Водительское удостоверение" = false ∧
    lookupKey
      (parse_front
        [("driving_since", ⟨"5. 05.07.2010", mkRat 8 10⟩),
         ("birth_date", ⟨"3. 01.01.1990", mkRat 9 10⟩)]
        (some "Водительское удостоверение"))
      "driving_since" = some (.vstr "2010-07-05", mkRat 8 10) := by decide

/-- C6 (amended): the driving_since entry of parse_front is subject to two
checks only.  A non-null value is the normalized region date, is strictly
after any parsed birth date, and is strictly before any validity date found
via the 4B marker in a nonempty context text; a candidate failing the
birth-date check, or failing the 4B check while passing the birth-date
check, is replaced by null with confidence 0.  No tenure-marker
corroboration takes place. -/
theorem C6_driving_checks :
    (∀ (rois : Rois) (ctx : Option String) (v : FieldValue) (q : ℚ) (s : String),
      lookupKey (parse_front rois ctx) "driving_since" = some (v, q) →
      v = .vstr s →
      normalize_date (strip_label (roi_text rois "driving_since")) = some s ∧
      (∀ b, normalize_date (strip_label (roi_text rois "birth_date")) = some b →
        strLe s b = false) ∧
      (∀ c vu, ctx = some c → c ≠ "" → extract_marker_date c ["4B"] = some vu →
        strLe vu s = false)) ∧
    (∀ (rois : Rois) (ctx : Option String) (d0 b : String),
      normalize_date (strip_label (roi_text rois "driving_since")) = some d0 →
      normalize_date (strip_label (roi_text rois "birth_date")) = some b →
      strLe d0 b = true →
      lookupKey (parse_front rois ctx) "driving_since" = some (.vnull, 0)) ∧
    (∀ (rois : Rois) (ctx : Option String) (d0 c vu : String),
      normalize_date (strip_label (roi_text rois "driving_since")) = some d0 →
      (∀ b, normalize_date (strip_label (roi_text rois "birth_date")) = some b →
        strLe d0 b = false) →
      ctx = some c → c ≠ "" → extract_marker_date c ["4B"] = some vu →
      strLe vu d0 = true →
      lookupKey (parse_front rois ctx) "driving_since" = some (.vnull, 0)) := by
  refine ⟨?_, ?_, ?_⟩
  · intro rois ctx v q s hent hv
    rw [parse_front_driving_entry rois ctx] at hent
    injection hent with h
    have hv1 : optStr (parse_front_driving rois ctx
        (normalize_date (strip_label (roi_text rois "birth_date")))).1 = v :=
      congrArg Prod.fst h
    rw [hv] at hv1
    have hfst : (parse_front_driving rois ctx
        (normalize_date (strip_label (roi_text rois "birth_date")))).1 = some s := by
      cases hx : (parse_front_driving rois ctx
          (normalize_date (strip_label (roi_text rois "birth_date")))).1 with
      | none => rw [hx] at hv1; cases hv1
      | some t =>
        rw [hx] at hv1
        injection hv1 with ht
        rw [ht]
    rw [parse_front_driving_as] at hfst
    exact (drivingLogic_spec _ _ _ _).1 s hfst
  · intro rois ctx d0 b h1 h2 h3
    rw [parse_front_driving_entry rois ctx, parse_front_driving_as,
      (drivingLogic_spec _ _ _ _).2.1 d0 b h1 h2 h3]
    rfl
  · intro rois ctx d0 c vu h1 hb hc hne hm hle
    rw [parse_front_driving_entry rois ctx, parse_front_driving_as,
      (drivingLogic_spec _ _ _ _).2.2 d0 c vu h1 hb hc hne hm hle]
    rfl

/-- Witness for C6: a kept date with a later 4B validity date in context, a
candidate dropped for preceding the birth date, and a candidate dropped for
following the 4B validity date. -/
theorem C6_driving_checks_witness :
    (normalize_date (strip_label (roi_text
        [("driving_since", ⟨"5. 05.07.2010", mkRat 8 10⟩),
         ("birth_date", ⟨"3. 01.01.1990", mkRat 9 10⟩)] "driving_since")) =
      some "2010-07-05" ∧
     (∀ b, normalize_date (strip_label (roi_text
          [("driving_since", ⟨"5. 05.07.2010", mkRat 8 10⟩),
           ("birth_date", ⟨"3. 01.01.1990", mkRat 9 10⟩)] "birth_date")) = some b →
        strLe "2010-07-05" b = false) ∧
     (∀ c vu, (some "4B. 01.01.2030" : Option String) = some c → c ≠ "" →
        extract_marker_date c ["4B"] = some vu →
        strLe vu "2010-07-05" = false)) ∧
    lookupKey
      (parse_front
        [("driving_since", ⟨"5. 05.07.2010", mkRat 8 10⟩),
         ("birth_date", ⟨"3. 01.01.2020", mkRat 9 10⟩)] none)
      "driving_since" = some (.vnull, 0) ∧
    lookupKey
      (parse_front
        [("driving_since", ⟨"5. 05.07.2010", mkRat 8 10⟩),
         ("birth_date", ⟨"3. 01.01.1990", mkRat 9 10⟩)]
        (some "4B. 01.01.2005"))
      "driving_since" = some (.vnull, 0) := by
  refine ⟨?_, ?_, ?_⟩
  · exact C6_driving_checks.1
      [("driving_since", ⟨"5. 05.07.2010", mkRat 8 10⟩),
       ("birth_date", ⟨"3. 01.01.1990", mkRat 9 10⟩)]
      (some "4B. 01.01.2030") (.vstr "2010-07-05") (mkRat 8 10) "2010-07-05"
      (by decide) rfl
  · exact C6_driving_checks.2.1
      [("driving_since", ⟨"5. 05.07.2010", mkRat 8 10⟩),
       ("birth_date", ⟨"3. 01.01.2020", mkRat 9 10⟩)] none
      "2010-07-05" "2020-01-01" (by decide) (by decide) (by decide)
  · refine C6_driving_checks.2.2
      [("driving_since", ⟨"5. 05.07.2010", mkRat 8 10⟩),
       ("birth_date", ⟨"3. 01.01.1990", mkRat 9 10⟩)]
      (some "4B. 01.01.2005") "2010-07-05" "4B. 01.01.2005" "2005-01-01"
      (by decide) ?_ rfl (by decide) (by decide) (by decide)
    intro b hb
    have hb2 : ("1990-01-01" : String) = b := by
      have hn : normalize_date (strip_label (roi_text
          [("driving_since", ⟨"5. 05.07.2010", mkRat 8 10⟩),
           ("birth_date", ⟨"3. 01.01.1990", mkRat 9 10⟩)] "birth_date")) =
          some "1990-01-01" := by decide
      rw [hn] at hb
      exact Option.some.inj hb
    rw [← hb2]
    decide

theorem lookupKey_append_some {β : Type} (l1 l2 : List (String × β)) (k : String)
    (x : β) (h : lookupKey l1 k = some x) : lookupKey (l1 ++ l2) k = some x := by
  induction l1 with
  | nil => simp [lookupKey] at h
  | cons kv rest ih =>
    simp only [List.cons_append, lookupKey] at h ⊢
    by_cases hk : kv.1 = k
    · rw [if_pos hk] at h ⊢
      exact h
    · rw [if_neg hk] at h ⊢
      exact ih h

theorem lookupKey_setKey_other (l : Parsed) (k1 k : String) (x : FieldValue × ℚ)
    (h : k1 ≠ k) : lookupKey (setKey l k1 x) k = lookupKey l k := by
  induction l with
  | nil => rfl
  | cons kv rest ih =>
    unfold setKey
    simp only [List.map_cons]
    by_cases hk : kv.1 = k1
    · rw [if_pos hk]
      simp only [lookupKey]
      rw [if_neg h, if_neg (hk ▸ h : ¬ kv.1 = k), ← ih]
      rfl
    · rw [if_neg hk]
      simp only [lookupKey]
      by_cases hk2 : kv.1 = k
      · rw [if_pos hk2, if_pos hk2]
      · rw [if_neg hk2, if_neg hk2, ← ih]
        rfl

theorem merge_parsed_preserves (fallback : Parsed) : ∀ (merged : Parsed) (k : String)
    (v : FieldValue) (q : ℚ), lookupKey merged k = some (v, q) →
    isMissingValue v = false →
    lookupKey (merge_parsed merged fallback) k = some (v, q) := by
  induction fallback with
  | nil => intro merged k v q h _; exact h
  | cons kv rest ih =>
    intro merged k v q h hm
    unfold merge_parsed
    rw [List.foldl_cons]
    show lookupKey (merge_parsed _ rest) k = some (v, q)
    by_cases h1 : isMissingValue kv.2.1 = true
    · rw [if_pos h1]
      exact ih merged k v q h hm
    · rw [if_neg h1]
      cases h2 : lookupKey merged kv.1 with
      | none =>
        exact ih (merged ++ [kv]) k v q (lookupKey_append_some merged [kv] k (v, q) h) hm
      | some cur =>
        by_cases hk : kv.1 = k
        · subst hk
          rw [h] at h2
          have hcur : cur = (v, q) := (Option.some.inj h2).symm
          subst hcur
          dsimp only
          rw [if_neg (by simp [hm])]
          exact ih merged kv.1 v q h hm
        · dsimp only
          by_cases h3 : isMissingValue cur.1 = true
          · rw [if_pos h3]
            refine ih (setKey merged kv.1 kv.2) k v q ?_ hm
            rw [lookupKey_setKey_other merged kv.1 k kv.2 hk]
            exact h
          · rw [if_neg h3]
            exact ih merged k v q h hm

theorem front_fallback_runs (rois : Rois) (ws : List String) (img : String)
    (warnings0 : List String) (ft : String) (fc : ℚ)
    (htrig : collect_raw_text rois = "" ∨
      REQUIRED_FIELDS.filter (fun n =>
        isMissingValue (((lookupKey
          (parse_front rois (some (collect_raw_text rois))) n).getD
            (.vnull, 0)).1)) ≠ [])
    (hft : ft ≠ "") :
    front_fallback (.decoded rois ws img) warnings0 ft fc =
      (merge_parsed
        (parse_front rois (some (String.intercalate "\n"
          (([collect_raw_text rois, ft]).filter (fun s => s ≠ "")))))
        (parse_front_from_text ft (some fc)),
       warnings0 ++ ["Front fallback OCR used."],
       String.intercalate "\n" (([collect_raw_text rois, ft]).filter (fun s => s ≠ ""))) := by
  unfold front_fallback
  dsimp only [sideRois, sideDecoded, sidePresent]
  rw [if_pos ⟨rfl, rfl⟩, if_pos htrig, if_pos hft]

/-- Counterexample to the claim that a field left non-missing by the
primary ROI pass keeps its primary value when the fallback runs: the
pipeline re-parses the front with the fallback text added to the context,
and the re-parse can drop a previously accepted value (here driving_since,
killed by a 4B validity date that only occurs in the fallback text). -/
theorem C7_counterexample :
    lookupKey
      (parse_front
        [("driving_since", ⟨"5. 05.07.2010", mkRat 8 10⟩),
         ("birth_date", ⟨"3. 01.01.1990", mkRat 9 10⟩)]
        (some (collect_raw_text
          [("driving_since", ⟨"5. 05.07.2010", mkRat 8 10⟩),
           ("birth_date", ⟨"3. 01.01.1990", mkRat 9 10⟩)])))
      "driving_since" = some (.vstr "2010-07-05", mkRat 8 10) ∧
    lookupKey
      (front_fallback
        (.decoded
          [("driving_since", ⟨"5. 05.07.2010", mkRat 8 10⟩),
           ("birth_date", ⟨"3. 01.01.1990", mkRat 9 10⟩)] [] "front-image")
        [] "4B\n01.01.2005" (mkRat 8 10)).1
      "driving_since" = some (.vnull, 0) ∧
    (front_fallback
        (.decoded
          [("driving_since", ⟨"5. 05.07.2010", mkRat 8 10⟩),
           ("birth_date", ⟨"3. 01.01.1990", mkRat 9 10⟩)] [] "front-image")
        [] "4B\n01.01.2005" (mkRat 8 10)).2.1 = ["Front fallback OCR used."] := by
  decide

/-- C7 (amended): the merge step itself never overwrites: any key whose
value is non-missing in the merge's primary argument keeps its value and
confidence in the merged map.  When the fallback branch of extract runs
(front decoded, trigger condition holds, fallback text nonempty), the
parsed front map is the merge of a RE-PARSE of the front regions — with
the fallback text appended to the context — with the text-parsed fields,
and the fallback warning is appended; the merge base is the re-parse, not
the original ROI pass, whose values may differ. -/
theorem C7_fallback_merge :
    (∀ (primary fallback : Parsed) (k : String) (v : FieldValue) (q : ℚ),
      lookupKey primary k = some (v, q) → isMissingValue v = false →
      lookupKey (merge_parsed primary fallback) k = some (v, q)) ∧
    (∀ (rois : Rois) (ws : List String) (img : String) (warnings0 : List String)
      (ft : String) (fc : ℚ),
      (collect_raw_text rois = "" ∨
        REQUIRED_FIELDS.filter (fun n =>
          isMissingValue (((lookupKey
            (parse_front rois (some (collect_raw_text rois))) n).getD
              (.vnull, 0)).1)) ≠ []) →
      ft ≠ "" →
      front_fallback (.decoded rois ws img) warnings0 ft fc =
        (merge_parsed
          (parse_front rois (some (String.intercalate "\n"
            (([collect_raw_text rois, ft]).filter (fun s => s ≠ "")))))
          (parse_front_from_text ft (some fc)),
         warnings0 ++ ["Front fallback OCR used."],
         String.intercalate "\n"
           (([collect_raw_text rois, ft]).filter (fun s => s ≠ "")))) :=
  ⟨fun primary fallback k v q h hm => merge_parsed_preserves fallback primary k v q h hm,
   fun rois ws img warnings0 ft fc htrig hft =>
     front_fallback_runs rois ws img warnings0 ft fc htrig hft⟩

/-- Witness for C7: a non-missing primary entry survives a conflicting
fallback entry, and the fallback branch fires on the concrete front side
used in the counterexample. -/
theorem C7_fallback_merge_witness :
    lookupKey
      (merge_parsed [("full_name", (.vstr "ИВАНОВ ИВАН", mkRat 9 10))]
        [("full_name", (.vstr "ПЕТРОВ ПЕТР", mkRat 5 10))]) "full_name" =
      some (.vstr "ИВАНОВ ИВАН", mkRat 9 10) ∧
    front_fallback
      (.decoded
        [("driving_since", ⟨"5. 05.07.2010", mkRat 8 10⟩),
         ("birth_date", ⟨"3. 01.01.1990", mkRat 9 10⟩)] [] "front-image")
      [] "4B\n01.01.2005" (mkRat 8 10) =
      (merge_parsed
        (parse_front
          [("driving_since", ⟨"5. 05.07.2010", mkRat 8 10⟩),
           ("birth_date", ⟨"3. 01.01.1990", mkRat 9 10⟩)]
          (some (String.intercalate "\n"
            (([collect_raw_text
                [("driving_since", ⟨"5. 05.07.2010", mkRat 8 10⟩),
                 ("birth_date", ⟨"3. 01.01.1990", mkRat 9 10⟩)],
               "4B\n01.01.2005"]).filter (fun s => s ≠ "")))))
        (parse_front_from_text "4B\n01.01.2005" (some (mkRat 8 10))),
       ["Front fallback OCR used."],
       String.intercalate "\n"
         (([collect_raw_text
             [("driving_since", ⟨"5. 05.07.2010", mkRat 8 10⟩),
              ("birth_date", ⟨"3. 01.01.1990", mkRat 9 10⟩)],
            "4B\n01.01.2005"]).filter (fun s => s ≠ ""))) := by
  constructor
  · exact C7_fallback_merge.1 [("full_name", (.vstr "ИВАНОВ ИВАН", mkRat 9 10))]
      [("full_name", (.vstr "ПЕТРОВ ПЕТР", mkRat 5 10))] "full_name"
      (.vstr "ИВАНОВ ИВАН") (mkRat 9 10) (by decide) (by decide)
  · exact C7_fallback_merge.2
      [("driving_since", ⟨"5. 05.07.2010", mkRat 8 10⟩),
       ("birth_date", ⟨"3. 01.01.1990", mkRat 9 10⟩)] [] "front-image" []
      "4B\n01.01.2005" (mkRat 8 10) (Or.inr (by decide)) (by decide)

theorem length_filterMap_isSome {α β : Type} (f : α → Option β) (l : List α) :
    (l.filterMap f).length = (l.filter (fun a => (f a).isSome)).length := by
  induction l with
  | nil => rfl
  | cons a rest ih =>
    cases hf : f a <;> simp [List.filterMap_cons, hf, List.filter_cons, ih]

theorem compute_anchor_shift_some (anchors : Anchors)
    (expected : List (String × (ℚ × ℚ))) (dx dy e : ℚ) (n : Nat)
    (h : compute_anchor_shift anchors expected = some (dx, dy, e, n)) :
    2 ≤ n ∧
    n = (expected.filter (fun le => (lookupKey anchors le.1).isSome)).length ∧
    dx = median ((expected.filterMap (fun le =>
      (lookupKey anchors le.1).map (fun obs =>
        AnchorPair.mk le.2.1 le.2.2 obs.1 obs.2.1))).map (fun p => qsub p.obsx p.expx)) ∧
    dy = median ((expected.filterMap (fun le =>
      (lookupKey anchors le.1).map (fun obs =>
        AnchorPair.mk le.2.1 le.2.2 obs.1 obs.2.1))).map (fun p => qsub p.obsy p.expy)) := by
  unfold compute_anchor_shift at h
  dsimp only at h
  by_cases hlen : (expected.filterMap (fun le =>
      (lookupKey anchors le.1).map (fun obs =>
        AnchorPair.mk le.2.1 le.2.2 obs.1 obs.2.1))).length < 2
  · rw [if_pos hlen] at h
    cases h
  · rw [if_neg hlen] at h
    injection h with h1
    have hdx : dx = median ((expected.filterMap (fun le =>
        (lookupKey anchors le.1).map (fun obs =>
          AnchorPair.mk le.2.1 le.2.2 obs.1 obs.2.1))).map
            (fun p => qsub p.obsx p.expx)) := (congrArg Prod.fst h1).symm
    have h2 := congrArg Prod.snd h1
    have hdy : dy = median ((expected.filterMap (fun le =>
        (lookupKey anchors le.1).map (fun obs =>
          AnchorPair.mk le.2.1 le.2.2 obs.1 obs.2.1))).map
            (fun p => qsub p.obsy p.expy)) := (congrArg Prod.fst h2).symm
    have h3 := congrArg Prod.snd h2
    have hn : ((expected.filterMap (fun le =>
        (lookupKey anchors le.1).map (fun obs =>
          AnchorPair.mk le.2.1 le.2.2 obs.1 obs.2.1))).map
            (fun p => qsub p.obsx p.expx)).length = n := congrArg Prod.snd h3
    rw [List.length_map] at hn
    refine ⟨?_, ?_, hdx, hdy⟩
    · omega
    · rw [← hn, length_filterMap_isSome]
      have hfc : ∀ le ∈ expected,
          ((lookupKey anchors le.1).map (fun obs =>
            AnchorPair.mk le.2.1 le.2.2 obs.1 obs.2.1)).isSome =
          (lookupKey anchors le.1).isSome := by
        intro le _
        cases lookupKey anchors le.1 <;> rfl
      rw [List.filter_congr hfc]

theorem select_no_anchors (n : String) :
    (select_front_template true [] (some n)).1 = n ∧
    (select_front_template true [] (some n)).2.2.1 = (0, 0) := ⟨rfl, rfl⟩

theorem select_anchors_off (d : Anchors) (n : String) :
    (select_front_template false d (some n)).1 = n := rfl

theorem select_no_match (detected : Anchors) (o : Option String)
    (hne : detected ≠ [])
    (hm2 : compute_anchor_shift detected FRONT_ANCHORS_V2 = none)
    (hm1 : compute_anchor_shift detected FRONT_ANCHORS_V1 = none) :
    (select_front_template true detected o).1 = DEFAULT_FRONT_TEMPLATE ∧
    (select_front_template true detected o).2.2.1 = (0, 0) := by
  unfold select_front_template
  rw [show (if (true : Bool) then detected else []) = detected from rfl]
  simp only [FRONT_ANCHORS, List.foldl_cons, List.foldl_nil, hm2, hm1]
  rw [if_pos hne, if_neg (by simp [hne])]
  exact ⟨rfl, rfl⟩

theorem select_both_match (detected : Anchors) (o : Option String)
    (dx2 dy2 e2 dx1 dy1 e1 : ℚ) (n2 n1 : Nat)
    (hne : detected ≠ [])
    (hm2 : compute_anchor_shift detected FRONT_ANCHORS_V2 = some (dx2, dy2, e2, n2))
    (hm1 : compute_anchor_shift detected FRONT_ANCHORS_V1 = some (dx1, dy1, e1, n1)) :
    ((select_front_template true detected o).1,
      (select_front_template true detected o).2.2.1) =
      if lexGtQ (n1, -e1) (n2, -e2) then ("v1", (dx1, dy1))
      else ("v2", (dx2, dy2)) := by
  unfold select_front_template
  rw [show (if (true : Bool) then detected else []) = detected from rfl]
  simp only [FRONT_ANCHORS, List.foldl_cons, List.foldl_nil, hm2, hm1]
  rw [if_pos hne]
  by_cases hlex : lexGtQ (n1, -e1) (n2, -e2) = true
  · rw [if_pos hlex, if_pos hlex, if_neg (by simp [hne])]
  · rw [if_neg hlex, if_neg hlex, if_neg (by simp [hne])]

/-- Counterexample to the claim that the field-scoring fallback runs
whenever no template has at least two matched anchors: with exactly one
detected anchor (matching both templates' label "1"), no template reaches
two matches, yet the scoring oracle (which names "v1") is ignored because
the anchor dict is nonempty; the default template with zero shift is
returned instead. -/
theorem C8_counterexample :
    (select_front_template true [("1", (mkRat 490 1, mkRat 265 1, mkRat 9 10))]
        (some "v1")).1 = "v2" ∧
    (select_front_template true [("1", (mkRat 490 1, mkRat 265 1, mkRat 9 10))]
        (some "v1")).2.2.1 = (0, 0) := by decide

/-- C8 (amended): anchor calibration accepts a template only with at least
two matched anchors, shifting by the per-axis medians and choosing the
lexicographically best (count, minus mean residual) score; the
field-scoring fallback is consulted only when NO anchors were detected at
all; when anchors were detected but no template reaches two matches, the
default template with zero shift is used and the scoring oracle is
ignored. -/
theorem C8_template_calibration :
    (∀ n : String, (select_front_template true [] (some n)).1 = n ∧
      (select_front_template true [] (some n)).2.2.1 = (0, 0)) ∧
    (∀ (detected : Anchors) (o : Option String), detected ≠ [] →
      compute_anchor_shift detected FRONT_ANCHORS_V2 = none →
      compute_anchor_shift detected FRONT_ANCHORS_V1 = none →
      (select_front_template true detected o).1 = DEFAULT_FRONT_TEMPLATE ∧
      (select_front_template true detected o).2.2.1 = (0, 0)) ∧
    (∀ (detected : Anchors) (o : Option String) (dx2 dy2 e2 dx1 dy1 e1 : ℚ)
      (n2 n1 : Nat), detected ≠ [] →
      compute_anchor_shift detected FRONT_ANCHORS_V2 = some (dx2, dy2, e2, n2) →
      compute_anchor_shift detected FRONT_ANCHORS_V1 = some (dx1, dy1, e1, n1) →
      ((select_front_template true detected o).1,
        (select_front_template true detected o).2.2.1) =
        if lexGtQ (n1, -e1) (n2, -e2) then ("v1", (dx1, dy1))
        else ("v2", (dx2, dy2))) ∧
    (∀ (anchors : Anchors) (expected : List (String × (ℚ × ℚ))) (dx dy e : ℚ)
      (n : Nat), compute_anchor_shift anchors expected = some (dx, dy, e, n) →
      2 ≤ n ∧
      n = (expected.filter (fun le => (lookupKey anchors le.1).isSome)).length ∧
      dx = median ((expected.filterMap (fun le =>
        (lookupKey anchors le.1).map (fun obs =>
          AnchorPair.mk le.2.1 le.2.2 obs.1 obs.2.1))).map
            (fun p => qsub p.obsx p.expx)) ∧
      dy = median ((expected.filterMap (fun le =>
        (lookupKey anchors le.1).map (fun obs =>
          AnchorPair.mk le.2.1 le.2.2 obs.1 obs.2.1))).map
            (fun p => qsub p.obsy p.expy))) :=
  ⟨fun n => select_no_anchors n,
   fun d o h h2 h1 => select_no_match d o h h2 h1,
   fun d o dx2 dy2 e2 dx1 dy1 e1 n2 n1 h hm2 hm1 =>
     select_both_match d o dx2 dy2 e2 dx1 dy1 e1 n2 n1 h hm2 hm1,
   fun a ex dx dy e n h => compute_anchor_shift_some a ex dx dy e n h⟩

/-- Witness for C8: the oracle decides with no anchors; one detected anchor
falls back to the default with zero shift; two anchors matching both
templates pick v1 by residual; and the match count is the number of
matched labels. -/
theorem C8_template_calibration_witness :
    ((select_front_template true [] (some "v1")).1 = "v1" ∧
      (select_front_template true [] (some "v1")).2.2.1 = (0, 0)) ∧
    ((select_front_template true [("1", (mkRat 490 1, mkRat 265 1, mkRat 9 10))]
        none).1 = DEFAULT_FRONT_TEMPLATE ∧
      (select_front_template true [("1", (mkRat 490 1, mkRat 265 1, mkRat 9 10))]
        none).2.2.1 = (0, 0)) ∧
    ((select_front_template true
        [("3", (mkRat 490 1, mkRat 400 1, mkRat 9 10)),
         ("5", (mkRat 490 1, mkRat 525 1, mkRat 9 10))] none).1,
      (select_front_template true
        [("3", (mkRat 490 1, mkRat 400 1, mkRat 9 10)),
         ("5", (mkRat 490 1, mkRat 525 1, mkRat 9 10))] none).2.2.1) =
      ("v1", (0, 0)) ∧
    (2 : Nat) = (FRONT_ANCHORS_V1.filter (fun le =>
      (lookupKey
        [("3", ((mkRat 490 1 : ℚ), (mkRat 400 1 : ℚ), (mkRat 9 10 : ℚ))),
         ("5", (mkRat 490 1, mkRat 525 1, mkRat 9 10))] le.1).isSome)).length := by
  refine ⟨C8_template_calibration.1 "v1",
    C8_template_calibration.2.1 [("1", (mkRat 490 1, mkRat 265 1, mkRat 9 10))]
      none (by decide) (by decide) (by decide), ?_, ?_⟩
  · have h := C8_template_calibration.2.2.1
      [("3", (mkRat 490 1, mkRat 400 1, mkRat 9 10)),
       ("5", (mkRat 490 1, mkRat 525 1, mkRat 9 10))] none
      0 (mkRat (-155) 2) (mkRat 135 2) 0 0 0 2 2
      (by decide) (by decide) (by decide)
    rw [h]
    decide
  · exact (C8_template_calibration.2.2.2
      [("3", (mkRat 490 1, mkRat 400 1, mkRat 9 10)),
       ("5", (mkRat 490 1, mkRat 525 1, mkRat 9 10))]
      FRONT_ANCHORS_V1 0 0 0 2 (by decide)).2.1

theorem dropWhile_head_false (p : Char → Bool) (l : List Char) :
    ∀ x xs, l.dropWhile p = x :: xs → p x = false := by
  induction l with
  | nil => intro x xs h; cases h
  | cons c rest ih =>
    intro x xs h
    rw [List.dropWhile_cons] at h
    by_cases hc : p c = true
    · rw [if_pos hc] at h
      exact ih x xs h
    · rw [if_neg hc] at h
      injection h with h1 _
      subst h1
      exact Bool.eq_false_iff.mpr hc

theorem dropWhile_dropWhile (p : Char → Bool) (l : List Char) :
    (l.dropWhile p).dropWhile p = l.dropWhile p := by
  cases hd : l.dropWhile p with
  | nil => rfl
  | cons x xs =>
    rw [List.dropWhile_cons, if_neg (by simp [dropWhile_head_false p l x xs hd])]

theorem prefix_word_takeWhile (u : List Char) : ∀ rest : List Char,
    (∀ d ∈ u, isWordChar d = true) → u.isPrefixOf rest = true →
    noWordAhead (rest.drop u.length) = true →
    u = rest.takeWhile isWordChar := by
  induction u with
  | nil =>
    intro rest _ _ hb
    cases rest with
    | nil => rfl
    | cons x xs =>
      rw [List.length_nil, List.drop_zero] at hb
      unfold noWordAhead at hb
      rw [List.takeWhile_cons, if_neg (by simp_all)]
  | cons x u' ih =>
    intro rest hword hp hb
    cases rest with
    | nil => simp [List.isPrefixOf] at hp
    | cons y ys =>
      simp only [List.isPrefixOf, Bool.and_eq_true, beq_iff_eq] at hp
      obtain ⟨hxy, hp'⟩ := hp
      subst hxy
      rw [List.takeWhile_cons, if_pos (hword x (List.mem_cons_self x u'))]
      rw [List.length_cons, List.drop_succ_cons] at hb
      rw [← ih ys (fun d hd => hword d (List.mem_cons_of_mem _ hd)) hp' hb]

theorem match_eq_run (w : List Char) (c : Char) (rest : List Char)
    (hw : w ≠ []) (hword : ∀ d ∈ w, isWordChar d = true)
    (hp : w.isPrefixOf (c :: rest) = true)
    (hb : noWordAhead ((c :: rest).drop w.length) = true) :
    w = c :: rest.takeWhile isWordChar := by
  cases w with
  | nil => exact absurd rfl hw
  | cons d u =>
    simp only [List.isPrefixOf, Bool.and_eq_true, beq_iff_eq] at hp
    obtain ⟨hdc, hp'⟩ := hp
    subst hdc
    rw [List.length_cons, List.drop_succ_cons] at hb
    rw [← prefix_word_takeWhile u rest
      (fun x hx => hword x (List.mem_cons_of_mem _ hx)) hp' hb]

theorem run_matches (c : Char) (rest : List Char) :
    (c :: rest.takeWhile isWordChar).isPrefixOf (c :: rest) = true ∧
    noWordAhead ((c :: rest).drop (c :: rest.takeWhile isWordChar).length) = true := by
  constructor
  · have h2 : (rest.takeWhile isWordChar).isPrefixOf rest = true :=
      List.isPrefixOf_iff_prefix.mpr (List.takeWhile_prefix _)
    simp [List.isPrefixOf, h2]
  · rw [List.length_cons, List.drop_succ_cons]
    have hsplit : rest.takeWhile isWordChar ++ rest.dropWhile isWordChar = rest :=
      List.takeWhile_append_dropWhile isWordChar rest
    have hdrop := List.drop_left (rest.takeWhile isWordChar) (rest.dropWhile isWordChar)
    rw [hsplit] at hdrop
    rw [hdrop]
    cases hd : rest.dropWhile isWordChar with
    | nil => rfl
    | cons x xs =>
      unfold noWordAhead
      simp [dropWhile_head_false isWordChar rest x xs hd]

theorem tryVocab_nonword (ws : List (List Char)) (c : Char) (rest : List Char)
    (hc : isWordChar c = false)
    (hall : ∀ w ∈ ws, w ≠ [] ∧ ∀ d ∈ w, isWordChar d = true) :
    tryVocab ws (c :: rest) = none := by
  induction ws with
  | nil => rfl
  | cons w ws' ih =>
    unfold tryVocab
    rw [if_neg]
    · exact ih (fun x hx => hall x (List.mem_cons_of_mem _ hx))
    · intro hm
      obtain ⟨hw, hword⟩ := hall w (List.mem_cons_self w ws')
      cases w with
      | nil => exact hw rfl
      | cons d u =>
        simp only [List.isPrefixOf, Bool.and_eq_true, beq_iff_eq] at hm
        obtain ⟨⟨hdc, _⟩, _⟩ := hm
        subst hdc
        rw [hword d (List.mem_cons_self d u)] at hc
        cases hc

theorem tryVocab_char (ws : List (List Char)) (c : Char) (rest : List Char)
    (hc : isWordChar c = true)
    (hall : ∀ w ∈ ws, w ≠ [] ∧ ∀ d ∈ w, isWordChar d = true) :
    tryVocab ws (c :: rest) =
      if (c :: rest.takeWhile isWordChar) ∈ ws
      then some (c :: rest.takeWhile isWordChar) else none := by
  induction ws with
  | nil => rfl
  | cons w ws' ih =>
    unfold tryVocab
    by_cases hm : w.isPrefixOf (c :: rest) = true ∧
        noWordAhead ((c :: rest).drop w.length) = true
    · rw [if_pos hm]
      obtain ⟨hw, hword⟩ := hall w (List.mem_cons_self w ws')
      have heq : w = c :: rest.takeWhile isWordChar :=
        match_eq_run w c rest hw hword hm.1 hm.2
      rw [if_pos (by rw [← heq]; exact List.mem_cons_self w ws'), heq]
    · rw [if_neg hm, ih (fun x hx => hall x (List.mem_cons_of_mem _ hx))]
      by_cases hrw : (c :: rest.takeWhile isWordChar) = w
      · exfalso
        apply hm
        rw [← hrw]
        exact run_matches c rest
      · by_cases hmem : (c :: rest.takeWhile isWordChar) ∈ ws'
        · rw [if_pos hmem, if_pos (List.mem_cons_of_mem _ hmem)]
        · rw [if_neg hmem, if_neg (by simp [List.mem_cons, hrw, hmem])]

theorem VOCAB_words : ∀ w ∈ VOCAB, w ≠ [] ∧ ∀ d ∈ w, isWordChar d = true := by
  decide

theorem getLastD_cons_mem (t : List Char) : ∀ (c d : Char), (c :: t).getLastD d ∈ c :: t := by
  induction t with
  | nil => intro c d; simp [List.getLastD]
  | cons x t' ih =>
    intro c d
    have h := ih x c
    simp only [List.getLastD] at h ⊢
    exact List.mem_cons_of_mem c h

theorem wordRunsAux_fuel : ∀ f1 : Nat, ∀ (f2 : Nat) (l : List Char),
    l.length ≤ f1 → l.length ≤ f2 → wordRunsAux f1 l = wordRunsAux f2 l := by
  intro f1
  induction f1 with
  | zero =>
    intro f2 l h1 _
    have hl : l = [] := List.length_eq_zero.mp (Nat.le_zero.mp h1)
    subst hl
    cases f2 <;> rfl
  | succ f ih =>
    intro f2 l h1 h2
    cases l with
    | nil => cases f2 <;> rfl
    | cons c rest =>
      cases f2 with
      | zero => simp at h2
      | succ f2' =>
        rw [List.length_cons] at h1 h2
        have hr1 : rest.length ≤ f := by omega
        have hr2 : rest.length ≤ f2' := by omega
        have hdw : (rest.dropWhile isWordChar).length ≤ rest.length :=
          (List.dropWhile_suffix isWordChar).sublist.length_le
        simp only [wordRunsAux]
        by_cases hc : isWordChar c = true
        · rw [if_pos hc, if_pos hc]
          rw [ih f2' (rest.dropWhile isWordChar) (by omega) (by omega)]
        · rw [if_neg hc, if_neg hc]
          exact ih f2' rest hr1 hr2

theorem wordRuns_cons_word (c : Char) (rest : List Char) (hc : isWordChar c = true) :
    wordRuns (c :: rest) =
      (c :: rest.takeWhile isWordChar) :: wordRuns (rest.dropWhile isWordChar) := by
  unfold wordRuns
  rw [List.length_cons]
  simp only [wordRunsAux]
  rw [if_pos hc]
  rw [wordRunsAux_fuel rest.length (rest.dropWhile isWordChar).length
    (rest.dropWhile isWordChar)
    (List.dropWhile_suffix isWordChar).sublist.length_le le_rfl]

theorem wordRuns_cons_nonword (c : Char) (rest : List Char)
    (hc : isWordChar c = false) :
    wordRuns (c :: rest) = wordRuns rest := by
  unfold wordRuns
  rw [List.length_cons]
  simp only [wordRunsAux]
  rw [if_neg (by simp [hc])]

theorem scanCatsAux_boundary_irrel (f : Nat) (p : Char) (hp : isWordChar p = false) :
    ∀ l : List Char, scanCatsAux f (some p) l = scanCatsAux f none l := by
  intro l
  cases f with
  | zero => rfl
  | succ f' =>
    cases l with
    | nil => rfl
    | cons c rest =>
      unfold scanCatsAux
      dsimp only
      rw [hp]
      rfl

theorem scanCatsAux_eq : ∀ fuel : Nat, ∀ (l : List Char) (prev : Option Char),
    l.length ≤ fuel →
    scanCatsAux fuel prev l =
      (match prev with
        | none => (wordRuns l).filter (fun r => r ∈ VOCAB)
        | some p =>
          if isWordChar p = true then
            (wordRuns (l.dropWhile isWordChar)).filter (fun r => r ∈ VOCAB)
          else (wordRuns l).filter (fun r => r ∈ VOCAB)) := by
  intro fuel
  induction fuel with
  | zero =>
    intro l prev h
    have hl : l = [] := List.length_eq_zero.mp (Nat.le_zero.mp h)
    subst hl
    cases prev with
    | none => rfl
    | some p =>
      dsimp only
      split <;> rfl
  | succ f ih =>
    intro l prev h
    cases l with
    | nil =>
      cases prev with
      | none => rfl
      | some p =>
        dsimp only
        split <;> rfl
    | cons c rest =>
      rw [List.length_cons] at h
      have hrest : rest.length ≤ f := by omega
      have hdwlen : (rest.dropWhile isWordChar).length ≤ f :=
        le_trans (List.dropWhile_suffix isWordChar).sublist.length_le hrest
      have hBnd : scanCatsAux (f + 1) none (c :: rest) =
          (wordRuns (c :: rest)).filter (fun r => r ∈ VOCAB) := by
        unfold scanCatsAux
        dsimp only
        rw [if_pos (show (true : Bool) = true from rfl)]
        by_cases hc : isWordChar c = true
        · rw [tryVocab_char VOCAB c rest hc VOCAB_words]
          by_cases hrun : (c :: rest.takeWhile isWordChar) ∈ VOCAB
          · rw [if_pos hrun]
            dsimp only
            have hlen : (c :: rest.takeWhile isWordChar).length - 1 =
                (rest.takeWhile isWordChar).length := by simp
            have hdrop : rest.drop ((c :: rest.takeWhile isWordChar).length - 1) =
                rest.dropWhile isWordChar := by
              rw [hlen]
              have hsplit := List.takeWhile_append_dropWhile isWordChar rest
              have hd := List.drop_left (rest.takeWhile isWordChar)
                (rest.dropWhile isWordChar)
              rw [hsplit] at hd
              exact hd
            rw [hdrop]
            have hlast : isWordChar ((c :: rest.takeWhile isWordChar).getLastD c) =
                true := by
              have hmem := getLastD_cons_mem (rest.takeWhile isWordChar) c c
              rcases List.mem_cons.mp hmem with heq | hmem'
              · rw [heq]; exact hc
              · exact List.mem_takeWhile_imp hmem'
            rw [ih (rest.dropWhile isWordChar)
              (some ((c :: rest.takeWhile isWordChar).getLastD c)) hdwlen]
            dsimp only
            rw [if_pos hlast, dropWhile_dropWhile]
            rw [wordRuns_cons_word c rest hc, List.filter_cons]
            simp [hrun]
          · rw [if_neg hrun]
            dsimp only
            rw [ih rest (some c) hrest]
            dsimp only
            rw [if_pos hc]
            rw [wordRuns_cons_word c rest hc, List.filter_cons]
            simp [hrun]
        · have hcf : isWordChar c = false := Bool.eq_false_iff.mpr hc
          rw [tryVocab_nonword VOCAB c rest hcf VOCAB_words]
          dsimp only
          rw [ih rest (some c) hrest]
          dsimp only
          rw [if_neg hc]
          rw [wordRuns_cons_nonword c rest hcf]
      cases prev with
      | none => exact hBnd
      | some p =>
        dsimp only
        by_cases hp : isWordChar p = true
        · rw [if_pos hp]
          unfold scanCatsAux
          dsimp only
          rw [hp]
          show scanCatsAux f (some c) rest = _
          rw [ih rest (some c) hrest]
          dsimp only
          by_cases hcw : isWordChar c = true
          · rw [if_pos hcw, List.dropWhile_cons, if_pos hcw]
          · rw [if_neg hcw, List.dropWhile_cons,
              if_neg (by simp [Bool.eq_false_iff.mpr hcw]),
              wordRuns_cons_nonword c rest (Bool.eq_false_iff.mpr hcw)]
        · rw [if_neg hp,
            scanCatsAux_boundary_irrel (f + 1) p (Bool.eq_false_iff.mpr hp) (c :: rest)]
          exact hBnd

/-- Counterexample to the claim's example clause: a string CONTAINING
"A B C1 BE M" need not return exactly that list — any other vocabulary
token in the same string (here a leading D) is also extracted. -/
theorem C9_counterexample :
    containsSub "D A B C1 BE M".data "A B C1 BE M".data = true ∧
    parse_categories "D A B C1 BE M" = ["D", "A", "B", "C1", "BE", "M"] := by
  decide

/-- C9 (amended): parse_categories returns exactly the maximal word runs of
the upper-cased input that are vocabulary tokens, in order of first
appearance, de-duplicated (the word-boundary anchors make a token match
exactly when it is such a run); on the exact string "Categories: A B C1
BE M" this yields the claimed list.  The claim's "on a string containing"
phrasing fails because other vocabulary tokens elsewhere in the string are
extracted as well. -/
theorem C9_parse_categories :
    (∀ s : String, parse_categories s = catsSpec s) ∧
    parse_categories "Categories: A B C1 BE M" = ["A", "B", "C1", "BE", "M"] := by
  constructor
  · intro s
    unfold parse_categories catsSpec
    by_cases hs : s = ""
    · subst hs
      rfl
    · rw [if_neg hs]
      unfold scanCats
      rw [scanCatsAux_eq (pyUpper s.data).length (pyUpper s.data) none le_rfl]
  · decide

/-- Witness for C10 at a concrete field map. -/
theorem C10_determine_status_invariants_witness :
    ((determine_status [] REQUIRED_FIELDS (mkRat 3 4)).1 = "ok" ∨
      (determine_status [] REQUIRED_FIELDS (mkRat 3 4)).1 = "partial") ∧
    determine_status [("extra", ⟨.vstr "x", 1⟩)] REQUIRED_FIELDS (mkRat 3 4) =
      determine_status [] REQUIRED_FIELDS (mkRat 3 4) := by
  refine ⟨(C10_determine_status_invariants []).1, ?_⟩
  exact (C10_determine_status_invariants []).2.2.2.2 [("extra", ⟨.vstr "x", 1⟩)]
    (by decide)

end RuDl
